import Mathlib

/-!
The file netbase.cpp: address classification, group keys, hashes, lookup and connect

A shallow embedding of `src/netbase.cpp` (class `CIP`, class `CIPPort`, the functions
`Lookup`, `LookupIntern` and the method `ConnectSocket`).

* `unsigned char ip[16]` is a list of byte values (`Nat`), well-formed when it
  has 16 entries, each below 256.
* `int` values that the code only ever holds non-negative are `Nat`.
* Storing an `int` into an `unsigned char` is written `% 256`.
* An `int` left shift whose count is out of range, or whose value does not
  fit the type, has no defined result: it is `none`.
* A C string is the list of its characters before the terminating NUL.
* What the code takes from the system (the resolver `getaddrinfo`, the results of the socket
  calls, platform constants and build flags) is a parameter of the function that uses it;
  `ConnectSocket` also returns the list of system calls it issued.
* The macro `closesocket` comes from a header that is not among the sources; it is a
  parameter of `ConnectSocket`, and each statement about a path that reaches it names the
  definition it is proved for.
-/

namespace Netbase

/-! ## Data model -/

/-- The class `CIP`: its only member is `unsigned char ip[16]`, in network byte order. -/
structure CIP where
  ip : List Nat
deriving DecidableEq

/-- A well-formed buffer: sixteen entries, each an `unsigned char`. -/
def CIP.WF (x : CIP) : Prop := x.ip.length = 16 ∧ ∀ b ∈ x.ip, b < 256

instance (x : CIP) : Decidable x.WF := by
  unfold CIP.WF
  exact inferInstance

/-- The class `CIPPort : public CIP` with `unsigned short port`. -/
structure CIPPort extends CIP where
  port : Nat
deriving DecidableEq

/-- A well-formed address/port value: a well-formed buffer and a 16-bit port. -/
def CIPPort.WF (x : CIPPort) : Prop := x.toCIP.WF ∧ x.port < 65536

instance (x : CIPPort) : Decidable x.WF := by
  unfold CIPPort.WF
  exact inferInstance

/-- The constant `static const unsigned char pchIPv4[12]`. -/
def pchIPv4 : List Nat := [0, 0, 0, 0, 0, 0, 0, 0, 0, 0, 0xff, 0xff]

/-- The C function `memcmp(a, b, n)`: the sign of the first difference among the first
`n` bytes, compared as unsigned bytes. -/
def memcmp : List Nat → List Nat → Nat → Int
  | _, _, 0 => 0
  | a :: as, b :: bs, n + 1 =>
      if a < b then -1 else if b < a then 1 else memcmp as bs n
  | _, _, _ + 1 => 0

/-- The C function `memcpy(dst + off, src, n)` on a buffer `dst`. -/
def memcpy (dst : List Nat) (off : Nat) (src : List Nat) (n : Nat) : List Nat :=
  dst.take off ++ src.take n ++ dst.drop (off + n)

/-- The method `CIP::Init`: `memset(ip, 0, 16)`. -/
def CIP.Init : CIP := ⟨List.replicate 16 0⟩

/-- The constructor `CIP::CIP(const struct in_addr&)`: the mapped prefix, then the four
address bytes `a.b.c.d` in network order. -/
def CIP.ofIPv4 (a b c d : Nat) : CIP :=
  ⟨memcpy (memcpy CIP.Init.ip 0 pchIPv4 12) 12 [a, b, c, d] 4⟩

/-- The constructor `CIP::CIP(const struct in6_addr&)`: `memcpy(ip, &ipv6Addr, 16)`. -/
def CIP.ofIPv6 (bytes : List Nat) : CIP :=
  ⟨memcpy CIP.Init.ip 0 bytes 16⟩

/-- The method `CIP::GetByte`: `return ip[15-n]`. Every call in the file passes `0 ≤ n ≤ 15`. -/
def CIP.GetByte (x : CIP) (n : Nat) : Nat := x.ip.getD (15 - n) 0

/-! ## Classification predicates -/

/-- The method `CIP::IsIPv4`. -/
def CIP.IsIPv4 (x : CIP) : Bool := memcmp x.ip pchIPv4 12 == 0

/-- The method `CIP::IsRFC1918`. -/
def CIP.IsRFC1918 (x : CIP) : Bool :=
  x.IsIPv4 && (
    x.GetByte 3 == 10 ||
    (x.GetByte 3 == 192 && x.GetByte 2 == 168) ||
    (x.GetByte 3 == 172 && (decide (x.GetByte 2 ≥ 16) && decide (x.GetByte 2 ≤ 31))))

/-- The method `CIP::IsRFC3927`. -/
def CIP.IsRFC3927 (x : CIP) : Bool :=
  x.IsIPv4 && (x.GetByte 3 == 169 && x.GetByte 2 == 254)

/-- The method `CIP::IsRFC3849`. -/
def CIP.IsRFC3849 (x : CIP) : Bool :=
  x.GetByte 15 == 0x20 && x.GetByte 14 == 0x01 && x.GetByte 13 == 0x0D && x.GetByte 12 == 0xB8

/-- The method `CIP::IsRFC3964`. -/
def CIP.IsRFC3964 (x : CIP) : Bool :=
  x.GetByte 15 == 0x20 && x.GetByte 14 == 0x02

/-- The constant `pchRFC6052` of `CIP::IsRFC6052`. -/
def pchRFC6052 : List Nat := [0, 0x64, 0xFF, 0x9B, 0, 0, 0, 0, 0, 0, 0, 0]

/-- The method `CIP::IsRFC6052`. -/
def CIP.IsRFC6052 (x : CIP) : Bool := memcmp x.ip pchRFC6052 12 == 0

/-- The method `CIP::IsRFC4380`. -/
def CIP.IsRFC4380 (x : CIP) : Bool :=
  x.GetByte 15 == 0x20 && x.GetByte 14 == 0x01 && x.GetByte 13 == 0 && x.GetByte 12 == 0

/-- The constant `pchRFC4862` of `CIP::IsRFC4862`. -/
def pchRFC4862 : List Nat := [0xFE, 0x80, 0, 0, 0, 0, 0, 0]

/-- The method `CIP::IsRFC4862`. -/
def CIP.IsRFC4862 (x : CIP) : Bool := memcmp x.ip pchRFC4862 8 == 0

/-- The method `CIP::IsRFC4193`. -/
def CIP.IsRFC4193 (x : CIP) : Bool := (x.GetByte 15 &&& 0xFE) == 0xFC

/-- The constant `pchRFC6145` of `CIP::IsRFC6145`. -/
def pchRFC6145 : List Nat := [0, 0, 0, 0, 0, 0, 0, 0, 0xFF, 0xFF, 0, 0]

/-- The method `CIP::IsRFC6145`. -/
def CIP.IsRFC6145 (x : CIP) : Bool := memcmp x.ip pchRFC6145 12 == 0

/-- The C++ conversion of a `bool` to `int`. -/
def boolToInt (b : Bool) : Nat := if b then 1 else 0

/-- The method `CIP::IsRFC4843`. Its last conjunct is written
`GetByte(12) & 0xF0 == 0x10`; in C++ `==` binds tighter than `&`, so the conjunct is
`GetByte(12) & (0xF0 == 0x10)`, converted to `bool` by comparison with zero. -/
def CIP.IsRFC4843 (x : CIP) : Bool :=
  x.GetByte 15 == 0x20 && x.GetByte 14 == 0x01 && x.GetByte 13 == 0x00 &&
    ((x.GetByte 12 &&& boolToInt ((0xF0 : Nat) == 0x10)) != 0)

/-- The constant `pchLocal` of `CIP::IsLocal`. -/
def pchLocal : List Nat := [0, 0, 0, 0, 0, 0, 0, 0, 0, 0, 0, 0, 0, 0, 0, 1]

/-- The method `CIP::IsLocal`. -/
def CIP.IsLocal (x : CIP) : Bool :=
  if x.IsIPv4 && (x.GetByte 3 == 127 || x.GetByte 3 == 0) then true
  else if memcmp x.ip pchLocal 16 == 0 then true
  else false

/-- The method `CIP::IsMulticast`. -/
def CIP.IsMulticast (x : CIP) : Bool :=
  (x.IsIPv4 && (x.GetByte 3 &&& 0xF0) == 0xE0) || (x.GetByte 15 == 0xFF)

/-- The four bytes of the `uint32_t` constant `INADDR_NONE` (`0xffffffff`) in memory. -/
def INADDR_NONE_bytes : List Nat := [0xff, 0xff, 0xff, 0xff]

/-- The method `CIP::IsValid`. -/
def CIP.IsValid (x : CIP) : Bool :=
  if memcmp x.ip (pchIPv4.drop 3) (12 - 3) == 0 then false
  else if memcmp x.ip (List.replicate 16 0) 16 == 0 then false
  else if x.IsRFC3849 then false
  else if x.IsIPv4 then
    if memcmp (x.ip.drop 12) INADDR_NONE_bytes 4 == 0 then false
    else if memcmp (x.ip.drop 12) [0, 0, 0, 0] 4 == 0 then false
    else true
  else true

/-- The method `CIP::IsRoutable`. -/
def CIP.IsRoutable (x : CIP) : Bool :=
  x.IsValid && !(x.IsRFC1918 || x.IsRFC3927 || x.IsRFC4862 || x.IsRFC4193 || x.IsRFC4843
    || x.IsLocal)

/-! ## Group keys -/

/-- The tail of `CIP::GetGroup`: `while (nBits >= 8)` pushes `GetByte(15 - nStartByte)` and
advances; afterwards a remaining partial byte is pushed with its low bits set. -/
def GetGroup.loop (x : CIP) : Nat → Nat → List Nat → List Nat
  | nStartByte, nBits + 8, vchRet =>
      GetGroup.loop x (nStartByte + 1) nBits (vchRet ++ [x.GetByte (15 - nStartByte) % 256])
  | nStartByte, nBits, vchRet =>
      if nBits > 0 then
        vchRet ++ [(x.GetByte (15 - nStartByte) ||| ((1 <<< nBits) - 1)) % 256]
      else vchRet

/-- The test `CIP::GetGroup` makes for its `/36` branch (commented `for he.net`). -/
def CIP.heNetTest (x : CIP) : Bool :=
  x.GetByte 15 == 0x20 && x.GetByte 14 == 0x11 && x.GetByte 13 == 0x04 && x.GetByte 12 == 0x70

/-- The method `CIP::GetGroup`. The locals start as `nClass = 0`, `nStartByte = 0`,
`nBits = 16`; each branch overrides some of them, and every branch but the Teredo one
falls through to `vchRet.push_back(nClass)` and the loop. -/
def CIP.GetGroup (x : CIP) : List Nat :=
  if !x.IsRoutable then
    GetGroup.loop x 0 128 [255 % 256]
  else if x.IsIPv4 || x.IsRFC6145 || x.IsRFC6052 then
    GetGroup.loop x 12 16 [1 % 256]
  else if x.IsRFC3964 then
    GetGroup.loop x 2 16 [1 % 256]
  else if x.IsRFC4380 then
    [1, (x.GetByte 3 ^^^ 0xFF) % 256, (x.GetByte 2 ^^^ 0xFF) % 256]
  else if x.heNetTest then
    GetGroup.loop x 0 36 [0 % 256]
  else
    GetGroup.loop x 0 32 [0 % 256]

/-! ## Hash and lookup key -/

/-- The C++ left shift `a << n` on `int` (32 bits) with non-negative operands: the result is
`a * 2^n` when the count is below the width and the value fits an `int`; otherwise the
expression has no defined value (a count of 32 or more is undefined in every C++ standard,
a value that does not fit is undefined for a signed operand before C++20). -/
def shlInt (a n : Nat) : Option Nat :=
  if n < 32 ∧ a * 2 ^ n < 2 ^ 31 then some (a * 2 ^ n) else none

/-- The table `static const int64 nByteMult[16]` of `CIP::GetHash`. -/
def nByteMult : List Int :=
  [0xF4764525, 0x75661FBE, 0xFA3B03BA, 0xEFCF4CA1, 0x4913E065, 0xDA655862, 0xFD7A1581,
   0xCE19A812, 0x92B6A557, 0x6374BC50, 0x096DC65F, 0x0EBA5B2B, 0x7D2CE0AB, 0x09BE7ADE,
   0x5CC350EF, 0xC618E6C7]

/-- The initialiser of `int64 ip` in `CIP::GetHash`, written
`GetByte(0) << 24 + GetByte(1) << 16 + GetByte(2) << 8 + GetByte(3)`. In C++ `+` binds
tighter than `<<`, and `<<` associates to the left, so the expression is
`((GetByte(0) << (24 + GetByte(1))) << (16 + GetByte(2))) << (8 + GetByte(3))`,
evaluated in `int`. -/
def GetHash.ipv4Value (b0 b1 b2 b3 : Nat) : Option Nat :=
  ((shlInt b0 (24 + b1)).bind fun t => shlInt t (16 + b2)).bind fun t => shlInt t (8 + b3)

/-- The method `CIP::GetHash` (an `int64`): for an IPv4-mapped address the reconstructed
`ip` times 7789, otherwise the sum of `nByteMult[n] * GetByte(n)` for `n = 0..15`. -/
def CIP.GetHash (x : CIP) : Option Int :=
  if x.IsIPv4 then
    (GetHash.ipv4Value (x.GetByte 0) (x.GetByte 1) (x.GetByte 2) (x.GetByte 3)).map
      fun ip => (ip : Int) * 7789
  else
    some ((List.range 16).foldl
      (fun nRet n => nRet + nByteMult.getD n 0 * (x.GetByte n : Int)) 0)

/-- The method `CIPPort::GetKey`: `vKey.resize(18)`, `memcpy(&vKey[0], ip, 16)`,
`vKey[16] = port / 0x100`, `vKey[17] = port & 0x0FF`. -/
def CIPPort.GetKey (x : CIPPort) : List Nat :=
  let vKey := List.replicate 18 0
  let vKey := memcpy vKey 0 x.ip 16
  let vKey := vKey.set 16 ((x.port / 0x100) % 256)
  let vKey := vKey.set 17 ((x.port &&& 0x0FF) % 256)
  vKey

/-! ## Comparison operators -/

/-- The function `operator==(const CIP&, const CIP&)`. -/
def CIP.opEq (a b : CIP) : Bool := memcmp a.ip b.ip 16 == 0

/-- The function `operator!=(const CIP&, const CIP&)`. -/
def CIP.opNe (a b : CIP) : Bool := memcmp a.ip b.ip 16 != 0

/-- The function `operator<(const CIP&, const CIP&)`. -/
def CIP.opLt (a b : CIP) : Bool := decide (memcmp a.ip b.ip 16 < 0)

/-- The function `operator==(const CIPPort&, const CIPPort&)`. -/
def CIPPort.opEq (a b : CIPPort) : Bool := CIP.opEq a.toCIP b.toCIP && a.port == b.port

/-- The function `operator!=(const CIPPort&, const CIPPort&)`. -/
def CIPPort.opNe (a b : CIPPort) : Bool := CIP.opNe a.toCIP b.toCIP || a.port != b.port

/-- The function `operator<(const CIPPort&, const CIPPort&)`. -/
def CIPPort.opLt (a b : CIPPort) : Bool :=
  CIP.opLt a.toCIP b.toCIP || (CIP.opEq a.toCIP b.toCIP && decide (a.port < b.port))

/-- The lexicographic order on sequences of numbers, as a reference: the first position
where the sequences differ decides. -/
def lexLt : List Nat → List Nat → Bool
  | [], [] => false
  | [], _ :: _ => true
  | _ :: _, [] => false
  | x :: xs, y :: ys => decide (x < y) || (x == y && lexLt xs ys)

/-- The sequence an address/port value is ordered by: its address bytes, then its port. -/
def CIPPort.sortKey (a : CIPPort) : List Nat := a.ip ++ [a.port]

/-! ## The class tests of `GetGroup` as a list of branches -/

/-- The branches of `CIP::GetGroup` for a routable address, in source order: each class test
with the key its branch produces. The tests `IsIPv4`, `IsRFC6145`, `IsRFC6052` share a branch,
so they carry the same key. -/
def GetGroup.branches (x : CIP) : List (Bool × List Nat) :=
  [(x.IsIPv4, GetGroup.loop x 12 16 [1 % 256]),
   (x.IsRFC6145, GetGroup.loop x 12 16 [1 % 256]),
   (x.IsRFC6052, GetGroup.loop x 12 16 [1 % 256]),
   (x.IsRFC3964, GetGroup.loop x 2 16 [1 % 256]),
   (x.IsRFC4380, [1, (x.GetByte 3 ^^^ 0xFF) % 256, (x.GetByte 2 ^^^ 0xFF) % 256]),
   (x.heNetTest, GetGroup.loop x 0 36 [0 % 256])]

/-- The key of the first branch whose test holds, in the order of the list `l`, or `dflt`. -/
def GetGroup.firstMatch (l : List (Bool × List Nat)) (dflt : List Nat) : List Nat :=
  match l.find? (fun b => b.1) with
  | some b => b.2
  | none => dflt

/-! ## The connect routine -/

/-- A system call issued by `CIPPort::ConnectSocket`, with the descriptor it acts on and the
argument the code computes for it. `onInvalidSocket` is a call whose descriptor argument is
`INVALID_SOCKET`. -/
inductive SysCall where
  | socket
  | setsockopt (fd : Nat)
  | fcntl_getfl (fd : Nat)
  | fcntl_setfl (fd : Nat) (flags : Int)
  | ioctlsocket (fd : Nat) (fNonblock : Nat)
  | connect (fd : Nat)
  | select (fd : Nat) (tv_sec tv_usec : Int)
  | getsockopt (fd : Nat)
  | closesocket (fd : Nat)
  | onInvalidSocket
deriving DecidableEq

/-- The outcome of comparing `WSAGetLastError()` with the codes the routine names. -/
inductive SockErr where
  | inProgress
  | wouldBlock
  | inval
  | isConn
  | other
deriving DecidableEq

/-- The macro `closesocket(s)`. Its definition is in a header that is not among the sources,
so it is a parameter of the routine: from the value of the variable `s` (`none` is
`INVALID_SOCKET`) it gives the system calls it issues and the value it leaves in `s`. -/
def CloseSocket : Type := Option Nat → List SysCall × Option Nat

/-- One possible definition of `closesocket(s)`: the system's `close`/`closesocket`, which
closes the descriptor and leaves the variable as it was. -/
def closesocketPlain : CloseSocket := fun s =>
  match s with
  | some fd => ([SysCall.closesocket fd], some fd)
  | none => ([SysCall.onInvalidSocket], none)

/-- Everything `CIPPort::ConnectSocket` receives from outside: the build flags, the constant
`O_NONBLOCK`, and the result of each system call. `socketRet = none` is `INVALID_SOCKET`. -/
structure ConnectEnv where
  WIN32 : Bool
  SO_NOSIGPIPE : Bool
  O_NONBLOCK : Int
  socketRet : Option Nat
  getfl1 : Int
  setNonblockFails : Bool
  connectFails : Bool
  lastError : SockErr
  selectRet : Int
  getsockoptFails : Bool
  soError : Int
  getfl2 : Int
  setBlockFails : Bool

/-- What `CIPPort::ConnectSocket` leaves behind: its return value, the value of `hSocketRet`
(`none` is `INVALID_SOCKET`) and the system calls it issued, in order. -/
structure ConnectResult where
  ret : Bool
  hSocketRet : Option Nat
  trace : List SysCall
deriving DecidableEq

/-- A system call on the variable `hSocket`: on its descriptor, or on `INVALID_SOCKET`. -/
def onSocket (hSocket : Option Nat) (call : Nat → SysCall) : SysCall :=
  match hSocket with
  | some fd => call fd
  | none => SysCall.onInvalidSocket

/-- The argument of the second `fcntl(hSocket, F_SETFL, ...)`: `fFlags & !O_NONBLOCK`, where
`!` is the logical negation of C++. -/
def ConnectSocket.restoreFlags (O_NONBLOCK fFlags : Int) : Int :=
  Int.land fFlags (boolToInt (O_NONBLOCK == 0))

/-- Every failure exit after the first block: `closesocket(hSocket); return false;`. -/
def ConnectSocket.fail (closesocket : CloseSocket) (hSocket : Option Nat)
    (t : List SysCall) : ConnectResult :=
  ⟨false, none, t ++ (closesocket hSocket).1⟩

/-- The end of `CIPPort::ConnectSocket`: the socket is set back to blocking mode; on failure
it is closed and `false` returned, otherwise `hSocketRet = hSocket` and `true`. -/
def ConnectSocket.restore (closesocket : CloseSocket) (env : ConnectEnv)
    (hSocket : Option Nat) (t : List SysCall) : ConnectResult :=
  let t :=
    if env.WIN32 then t ++ [onSocket hSocket (fun fd => SysCall.ioctlsocket fd 0)]
    else t ++ [onSocket hSocket SysCall.fcntl_getfl,
      onSocket hSocket (fun fd =>
        SysCall.fcntl_setfl fd (ConnectSocket.restoreFlags env.O_NONBLOCK env.getfl2))]
  if env.setBlockFails then ConnectSocket.fail closesocket hSocket t
  else ⟨true, hSocket, t⟩

/-- The part of `CIPPort::ConnectSocket` after the call of `connect`, whose result is
`env.connectFails`: the wait for a pending connection, the query of the pending error, and
the way back to blocking mode. -/
def ConnectSocket.afterConnect (closesocket : CloseSocket) (env : ConnectEnv)
    (nTimeout : Int) (hSocket : Option Nat) (t : List SysCall) : ConnectResult :=
  if env.connectFails then
    if env.lastError = SockErr.inProgress ∨ env.lastError = SockErr.wouldBlock
        ∨ env.lastError = SockErr.inval then
      let t := t ++ [onSocket hSocket (fun fd => SysCall.select fd (Int.tdiv nTimeout 1000)
        (Int.tmod nTimeout 1000 * 1000))]
      if env.selectRet = 0 then ConnectSocket.fail closesocket hSocket t
      else if env.selectRet = -1 then ConnectSocket.fail closesocket hSocket t
      else
        let t := t ++ [onSocket hSocket SysCall.getsockopt]
        if env.getsockoptFails then ConnectSocket.fail closesocket hSocket t
        else if env.soError ≠ 0 then ConnectSocket.fail closesocket hSocket t
        else ConnectSocket.restore closesocket env hSocket t
    else if !env.WIN32 || env.lastError ≠ SockErr.isConn then
      ConnectSocket.fail closesocket hSocket t
    else ConnectSocket.restore closesocket env hSocket t
  else ConnectSocket.restore closesocket env hSocket t

/-- The method `CIPPort::ConnectSocket(SOCKET& hSocketRet, int nTimeout)`. The address only
enters through `GetSockAddr`, whose result goes to `connect`; the outcome of `connect` is an
input here. The block that handles a failed switch to non-blocking mode is
`closesocket(hSocket);` with no `return`, so the routine goes on with whatever `closesocket`
left in `hSocket`. -/
def CIPPort.ConnectSocket (closesocket : CloseSocket) (env : ConnectEnv) (nTimeout : Int) :
    ConnectResult :=
  match env.socketRet with
  | none => ⟨false, none, [SysCall.socket]⟩
  | some fd =>
    let hSocket : Option Nat := some fd
    let t := [SysCall.socket]
    let t := if env.SO_NOSIGPIPE then t ++ [SysCall.setsockopt fd] else t
    let t :=
      if env.WIN32 then t ++ [SysCall.ioctlsocket fd 1]
      else t ++ [SysCall.fcntl_getfl fd,
        SysCall.fcntl_setfl fd (Int.lor env.getfl1 env.O_NONBLOCK)]
    let t := if env.setNonblockFails then t ++ (closesocket hSocket).1 else t
    let hSocket := if env.setNonblockFails then (closesocket hSocket).2 else hSocket
    let t := t ++ [onSocket hSocket SysCall.connect]
    ConnectSocket.afterConnect closesocket env nTimeout hSocket t

/-- The descriptor a system call acts on. -/
def SysCall.fd : SysCall → Option Nat
  | .socket => none
  | .setsockopt fd => some fd
  | .fcntl_getfl fd => some fd
  | .fcntl_setfl fd _ => some fd
  | .ioctlsocket fd _ => some fd
  | .connect fd => some fd
  | .select fd _ _ => some fd
  | .getsockopt fd => some fd
  | .closesocket fd => some fd
  | .onInvalidSocket => none

/-- One entry of the list `getaddrinfo` returns: an `AF_INET` entry with the four bytes of
`sin_addr`, an `AF_INET6` entry with the bytes of `sin6_addr`, or an entry of another
family. -/
inductive AddrInfo where
  | inet (a b c d : Nat)
  | inet6 (bytes : List Nat)
  | other
deriving DecidableEq

/-- What the lookup functions take from outside: the system resolver `getaddrinfo` (given the
name and whether `AI_NUMERICHOST` is set; `none` is a non-zero error code), the build flag
`USE_IPV6`, and the constant `ULONG_MAX` of the platform. -/
structure Resolver where
  getaddrinfo : List Char → Bool → Option (List AddrInfo)
  USE_IPV6 : Bool
  ULONG_MAX : Nat

/-- The loop of `LookupIntern` over the result list: while there is an entry and
`nMaxSolutions == 0 || vIP.size() < nMaxSolutions`, an `AF_INET` entry is pushed and, under
`USE_IPV6`, an `AF_INET6` entry is pushed. -/
def LookupIntern.collect (useIPv6 : Bool) (nMaxSolutions : Nat) :
    List AddrInfo → List CIP → List CIP
  | [], vIP => vIP
  | ai :: aiNext, vIP =>
      if nMaxSolutions = 0 ∨ vIP.length < nMaxSolutions then
        let vIP := match ai with
          | AddrInfo.inet a b c d => vIP ++ [CIP.ofIPv4 a b c d]
          | _ => vIP
        let vIP := match ai with
          | AddrInfo.inet6 bytes => if useIPv6 then vIP ++ [CIP.ofIPv6 bytes] else vIP
          | _ => vIP
        LookupIntern.collect useIPv6 nMaxSolutions aiNext vIP
      else vIP

/-- The function `LookupIntern`: its return value and the vector `vIP` it fills. -/
def LookupIntern (sys : Resolver) (pszName : List Char) (nMaxSolutions : Nat)
    (fAllowLookup : Bool) : Bool × List CIP :=
  match sys.getaddrinfo pszName (!fAllowLookup) with
  | none => (false, [])
  | some aiRes =>
      let vIP := LookupIntern.collect sys.USE_IPV6 nMaxSolutions aiRes []
      (decide (vIP.length > 0), vIP)

/-- The C function `strrchr(s, c)` as the index of the last occurrence of `c` in `s`. -/
def strrchr : List Char → Char → Option Nat
  | [], _ => none
  | x :: t, c =>
      match strrchr t c with
      | some i => some (i + 1)
      | none => if x = c then some 0 else none

/-- The C function `isspace` in the "C" locale: space, and the controls 9..13. -/
def isspace (c : Char) : Bool := decide (c.toNat = 32 ∨ (9 ≤ c.toNat ∧ c.toNat ≤ 13))

/-- The C function `isdigit`: the characters `0`..`9`. -/
def isdigit (c : Char) : Bool := decide (48 ≤ c.toNat ∧ c.toNat ≤ 57)

/-- The value of a string of decimal digits. -/
def decValue (digits : List Char) : Nat :=
  digits.foldl (fun acc c => acc * 10 + (c.toNat - 48)) 0

/-- The C function `strtoul(s, &end, 10)`: the value and the offset of `end` in `s`. White
space is skipped, one sign is accepted, then the decimal digits are taken. Without a digit
there is no conversion: the value is 0 and `end` is `s`. A value above `ULONG_MAX` gives
`ULONG_MAX`; a minus sign negates in `unsigned long`. -/
def strtoul (ULONG_MAX : Nat) (s : List Char) : Nat × Nat :=
  let nSpace := (s.takeWhile isspace).length
  let s1 := s.drop nSpace
  let neg := decide (s1.head? = some '-')
  let nSign := if s1.head? = some '-' ∨ s1.head? = some '+' then 1 else 0
  let digits := (s1.drop nSign).takeWhile isdigit
  if digits = [] then (0, 0)
  else
    let v := decValue digits
    let pEnd := nSpace + nSign + digits.length
    if v > ULONG_MAX then (ULONG_MAX, pEnd)
    else if neg then ((ULONG_MAX + 1 - v) % (ULONG_MAX + 1), pEnd)
    else (v, pEnd)

/-- The conversion of an `unsigned long` to `int` (32 bits, two's complement). -/
def ulongToInt (v : Nat) : Int := ((v : Int) + 2 ^ 31) % 2 ^ 32 - 2 ^ 31

/-- The `else` block of `Lookup` (also taken when there is no usable port): a string that
starts with `[` and ends with `]` loses both. -/
def Lookup.stripBrackets (psz : List Char) : List Char :=
  if psz.head? = some '[' ∧ psz.getLast? = some ']' then psz.dropLast.drop 1 else psz

/-- The parsing part of `Lookup`, on the buffer `psz`: the host string `pszHost` handed to
`LookupIntern` and the value of `port`. `pszColon` is the last `:` at or after `psz+1`; the
text after it goes to `strtoul`; the port branch is taken when `strtoul` stops at the end of
the string. The range test of that branch reads `port`, which still holds `portDefault`. -/
def Lookup.parse (ULONG_MAX : Nat) (psz : List Char) (portDefault : Int) : List Char × Int :=
  let port := portDefault
  match strrchr (psz.drop 1) ':' with
  | none => (Lookup.stripBrackets psz, port)
  | some i =>
      let pszColon := i + 1
      let pszPort := psz.drop (pszColon + 1)
      let portParsed := ulongToInt (strtoul ULONG_MAX pszPort).1
      let pszPortEnd := (strtoul ULONG_MAX pszPort).2
      if pszPort.drop pszPortEnd = [] then
        let pszHost :=
          if psz.head? = some '[' ∧ psz[pszColon - 1]? = some ']' then
            (psz.take (pszColon - 1)).drop 1
          else psz.take pszColon
        let port := if 0 ≤ port ∧ port ≤ 65535 then portParsed else port
        (pszHost, port)
      else (Lookup.stripBrackets psz, port)

/-- The end of `Lookup`: `LookupIntern(pszHost, vIP, 1, fAllowLookup)`; on failure `false`
(`none`), otherwise `addr = CIPPort(vIP[0], port)` with `port` converted to
`unsigned short`. -/
def Lookup.finish (sys : Resolver) (pszHost : List Char) (port : Int) (fAllowLookup : Bool) :
    Option CIPPort :=
  match LookupIntern sys pszHost 1 fAllowLookup with
  | (true, ip :: _) => some ⟨ip, (port % 65536).toNat⟩
  | _ => none

/-- The function `Lookup(pszName, addr, portDefault, fAllowLookup)`: `none` when it returns
false, otherwise the value stored in `addr`. The name is copied into a buffer of 256 bytes,
cut after 255. -/
def Lookup (sys : Resolver) (pszName : List Char) (portDefault : Int) (fAllowLookup : Bool) :
    Option CIPPort :=
  if pszName = [] then none
  else
    let psz := pszName.take 255
    Lookup.finish sys (Lookup.parse sys.ULONG_MAX psz portDefault).1
      (Lookup.parse sys.ULONG_MAX psz portDefault).2 fAllowLookup

/-- The characters of an IPv6 literal in text form: hexadecimal digits, `:` and `.`. -/
def isIPv6LiteralChar (c : Char) : Bool :=
  isdigit c || decide (97 ≤ c.toNat ∧ c.toNat ≤ 102) || decide (65 ≤ c.toNat ∧ c.toNat ≤ 70)
    || c == ':' || c == '.'

/-! ## Text form -/

/-- The `printf` conversion `%u` of a non-negative value: its decimal digits. -/
def fmtU (n : Nat) : List Char := Nat.toDigits 10 n

/-- The `printf` conversion `%x` of a non-negative value: its hexadecimal digits, lowercase. -/
def fmtX (n : Nat) : List Char := Nat.toDigits 16 n

/-- The method `CIP::ToString`: `%u.%u.%u.%u` of `GetByte(3..0)` for an IPv4-mapped address,
otherwise `%x:%x:%x:%x:%x:%x:%x:%x` of the eight values `GetByte(2k+1) << 8 | GetByte(2k)`,
from `k = 7` down to `k = 0`. -/
def CIP.ToString (x : CIP) : List Char :=
  if x.IsIPv4 then
    fmtU (x.GetByte 3) ++ '.' :: (fmtU (x.GetByte 2) ++ '.' :: (fmtU (x.GetByte 1) ++ '.' ::
      fmtU (x.GetByte 0)))
  else
    fmtX ((x.GetByte 15 <<< 8) ||| x.GetByte 14) ++ ':' ::
      (fmtX ((x.GetByte 13 <<< 8) ||| x.GetByte 12) ++ ':' ::
      (fmtX ((x.GetByte 11 <<< 8) ||| x.GetByte 10) ++ ':' ::
      (fmtX ((x.GetByte 9 <<< 8) ||| x.GetByte 8) ++ ':' ::
      (fmtX ((x.GetByte 7 <<< 8) ||| x.GetByte 6) ++ ':' ::
      (fmtX ((x.GetByte 5 <<< 8) ||| x.GetByte 4) ++ ':' ::
      (fmtX ((x.GetByte 3 <<< 8) ||| x.GetByte 2) ++ ':' ::
      fmtX ((x.GetByte 1 <<< 8) ||| x.GetByte 0)))))))

/-- The pieces of a text between the occurrences of the separator `sep`. -/
def splitOn (sep : Char) : List Char → List (List Char)
  | [] => [[]]
  | c :: t =>
      if c = sep then [] :: splitOn sep t
      else
        match splitOn sep t with
        | [] => [[c]]
        | g :: gs => (c :: g) :: gs

/-- The value of a decimal number in text form: a non-empty string of digits. -/
def parseDec (s : List Char) : Option Nat :=
  if s ≠ [] ∧ s.all isdigit then some (decValue s) else none

/-- The value of a lowercase hexadecimal digit. -/
def hexDigitValue (c : Char) : Option Nat :=
  if isdigit c then some (c.toNat - 48)
  else if 97 ≤ c.toNat ∧ c.toNat ≤ 102 then some (c.toNat - 87)
  else none

/-- The value of a lowercase hexadecimal number in text form: a non-empty string of
hexadecimal digits. -/
def parseHex (s : List Char) : Option Nat :=
  if s = [] then none
  else s.foldl (fun acc c =>
    match acc, hexDigitValue c with
    | some a, some v => some (a * 16 + v)
    | _, _ => none) (some 0)

/-- The reference decoder of address literals: a text with a `.` is read as an IPv4 literal,
four decimal octets of at most 255 separated by `.`, stored in mapped form; any other text is
read as a full-form IPv6 literal, eight hexadecimal groups of at most `ffff` separated by
`:`, each group giving two bytes, high byte first. -/
def decodeLiteral (s : List Char) : Option CIP :=
  if '.' ∈ s then
    match (splitOn '.' s).map parseDec with
    | [some a, some b, some c, some d] =>
        if a ≤ 255 ∧ b ≤ 255 ∧ c ≤ 255 ∧ d ≤ 255 then some (CIP.ofIPv4 a b c d) else none
    | _ => none
  else
    match (splitOn ':' s).map parseHex with
    | [some g0, some g1, some g2, some g3, some g4, some g5, some g6, some g7] =>
        if g0 ≤ 0xffff ∧ g1 ≤ 0xffff ∧ g2 ≤ 0xffff ∧ g3 ≤ 0xffff ∧ g4 ≤ 0xffff ∧ g5 ≤ 0xffff
            ∧ g6 ≤ 0xffff ∧ g7 ≤ 0xffff then
          some (CIP.ofIPv6 [g0 / 256, g0 % 256, g1 / 256, g1 % 256, g2 / 256, g2 % 256,
            g3 / 256, g3 % 256, g4 / 256, g4 % 256, g5 / 256, g5 % 256, g6 / 256, g6 % 256,
            g7 / 256, g7 % 256])
        else none
    | _ => none

/-! ## Auxiliary lemmas -/

theorem list_cons_of_length {n : Nat} {l : List Nat} (h : l.length = n + 1) :
    ∃ a t, l = a :: t ∧ t.length = n := by
  cases l with
  | nil => simp at h
  | cons a t => exact ⟨a, t, rfl, by simpa using h⟩

/-- A well-formed buffer is a list of sixteen named bytes. -/
theorem CIP.WF.bytes {x : CIP} (h : x.WF) :
    ∃ b0 b1 b2 b3 b4 b5 b6 b7 b8 b9 b10 b11 b12 b13 b14 b15 : Nat,
      x = ⟨[b0, b1, b2, b3, b4, b5, b6, b7, b8, b9, b10, b11, b12, b13, b14, b15]⟩ ∧
      b0 < 256 ∧ b1 < 256 ∧ b2 < 256 ∧ b3 < 256 ∧ b4 < 256 ∧ b5 < 256 ∧ b6 < 256 ∧
      b7 < 256 ∧ b8 < 256 ∧ b9 < 256 ∧ b10 < 256 ∧ b11 < 256 ∧ b12 < 256 ∧ b13 < 256 ∧
      b14 < 256 ∧ b15 < 256 := by
  obtain ⟨ip⟩ := x
  obtain ⟨hl, hb⟩ := h
  simp only at hl hb
  obtain ⟨b0, t0, e0, l0⟩ := list_cons_of_length hl
  obtain ⟨b1, t1, e1, l1⟩ := list_cons_of_length l0
  obtain ⟨b2, t2, e2, l2⟩ := list_cons_of_length l1
  obtain ⟨b3, t3, e3, l3⟩ := list_cons_of_length l2
  obtain ⟨b4, t4, e4, l4⟩ := list_cons_of_length l3
  obtain ⟨b5, t5, e5, l5⟩ := list_cons_of_length l4
  obtain ⟨b6, t6, e6, l6⟩ := list_cons_of_length l5
  obtain ⟨b7, t7, e7, l7⟩ := list_cons_of_length l6
  obtain ⟨b8, t8, e8, l8⟩ := list_cons_of_length l7
  obtain ⟨b9, t9, e9, l9⟩ := list_cons_of_length l8
  obtain ⟨b10, t10, e10, l10⟩ := list_cons_of_length l9
  obtain ⟨b11, t11, e11, l11⟩ := list_cons_of_length l10
  obtain ⟨b12, t12, e12, l12⟩ := list_cons_of_length l11
  obtain ⟨b13, t13, e13, l13⟩ := list_cons_of_length l12
  obtain ⟨b14, t14, e14, l14⟩ := list_cons_of_length l13
  obtain ⟨b15, t15, e15, l15⟩ := list_cons_of_length l14
  have e16 : t15 = [] := List.length_eq_zero.mp l15
  subst e16 e15 e14 e13 e12 e11 e10 e9 e8 e7 e6 e5 e4 e3 e2 e1 e0
  refine ⟨b0, b1, b2, b3, b4, b5, b6, b7, b8, b9, b10, b11, b12, b13, b14, b15, rfl, ?_⟩
  simp only [List.mem_cons, List.mem_singleton, forall_eq_or_imp, forall_eq] at hb
  simpa using hb

/-- Comparing `n` bytes gives zero exactly when the first `n` bytes agree. -/
theorem memcmp_eq_zero_iff : ∀ (n : Nat) (a b : List Nat), n ≤ a.length → n ≤ b.length →
    (memcmp a b n = 0 ↔ a.take n = b.take n) := by
  intro n
  induction n with
  | zero => intro a b _ _; simp [memcmp]
  | succ n ih =>
    intro a b ha hb
    cases a with
    | nil => simp at ha
    | cons x as =>
      cases b with
      | nil => simp at hb
      | cons y bs =>
        have ha1 : n ≤ as.length := by simpa using ha
        have hb1 : n ≤ bs.length := by simpa using hb
        rw [memcmp]
        by_cases h1 : x < y
        · simp only [h1, if_true, List.take_succ_cons, List.cons.injEq]
          constructor
          · intro h; exact absurd h (by decide)
          · intro h; omega
        · by_cases h2 : y < x
          · simp only [h1, h2, if_true, if_false, List.take_succ_cons, List.cons.injEq]
            constructor
            · intro h; exact absurd h (by decide)
            · intro h; omega
          · have hxy : x = y := by omega
            subst hxy
            simp only [lt_self_iff_false, if_false, List.take_succ_cons, List.cons.injEq,
              true_and]
            exact ih as bs ha1 hb1

theorem GetGroup.loop_step (x : CIP) (s n : Nat) (acc : List Nat) :
    GetGroup.loop x s (n + 8) acc
      = GetGroup.loop x (s + 1) n (acc ++ [x.GetByte (15 - s) % 256]) := by
  rw [GetGroup.loop]

theorem GetGroup.loop_rest (x : CIP) (s n : Nat) (acc : List Nat) (hn : n < 8) :
    GetGroup.loop x s n acc
      = if n > 0 then acc ++ [(x.GetByte (15 - s) ||| ((1 <<< n) - 1)) % 256] else acc := by
  rw [GetGroup.loop]
  intro m hm
  omega

/-- A whole number `k` of bytes makes the loop append `k` consecutive forward bytes. -/
theorem GetGroup.loop_bytes (x : CIP) (k : Nat) : ∀ (s : Nat) (acc : List Nat),
    GetGroup.loop x s (8 * k) acc
      = acc ++ (List.range k).map (fun i => x.GetByte (15 - (s + i)) % 256) := by
  induction k with
  | zero =>
    intro s acc
    rw [GetGroup.loop_rest x s _ acc (by omega)]
    simp
  | succ k ih =>
    intro s acc
    have e : 8 * (k + 1) = 8 * k + 8 := by ring
    rw [e, GetGroup.loop_step, ih, List.range_succ_eq_map]
    simp [Nat.add_assoc, Nat.add_comm 1]

/-- The key of an unroutable address: the class byte 255, then the sixteen bytes. -/
theorem key_unroutable (x : CIP) (hx : x.WF) (hr : x.IsRoutable = false) :
    x.GetGroup = 255 :: x.ip := by
  obtain ⟨b0, b1, b2, b3, b4, b5, b6, b7, b8, b9, b10, b11, b12, b13, b14, b15, rfl,
    h0, h1, h2, h3, h4, h5, h6, h7, h8, h9, h10, h11, h12, h13, h14, h15⟩ := hx.bytes
  unfold CIP.GetGroup
  rw [hr]
  simp only [Bool.not_false, if_true]
  rw [show (128 : Nat) = 8 * 16 from rfl, GetGroup.loop_bytes]
  simp [List.range_succ, CIP.GetByte, Nat.mod_eq_of_lt, *]

/-! ## Claims -/

/-- C1: two distinct well-formed addresses that are both unroutable have different group
keys; the key of an unroutable address is the 17-byte sequence 255 followed by its sixteen
stored bytes in forward order. -/
theorem GetGroup_unroutable_distinct (a b : CIP) (ha : a.WF) (hb : b.WF)
    (hra : a.IsRoutable = false) (hrb : b.IsRoutable = false) (hne : a ≠ b) :
    a.GetGroup = 255 :: a.ip ∧ a.GetGroup.length = 17 ∧ a.GetGroup ≠ b.GetGroup := by
  have ea := key_unroutable a ha hra
  have eb := key_unroutable b hb hrb
  refine ⟨ea, ?_, ?_⟩
  · rw [ea, List.length_cons, ha.1]
  · rw [ea, eb]
    intro h
    apply hne
    have hip : a.ip = b.ip := (List.cons.inj h).2
    cases a
    cases b
    simpa using hip

/-- C1 witness: 192.168.1.1 and 192.168.1.2 are both unroutable and get different keys. -/
theorem GetGroup_unroutable_distinct_witness :
    (CIP.ofIPv4 192 168 1 1).IsRoutable = false ∧ (CIP.ofIPv4 192 168 1 2).IsRoutable = false ∧
    (CIP.ofIPv4 192 168 1 1).GetGroup
      = [255, 0, 0, 0, 0, 0, 0, 0, 0, 0, 0, 0xff, 0xff, 192, 168, 1, 1] ∧
    (CIP.ofIPv4 192 168 1 1).GetGroup ≠ (CIP.ofIPv4 192 168 1 2).GetGroup :=
  have h := GetGroup_unroutable_distinct (CIP.ofIPv4 192 168 1 1) (CIP.ofIPv4 192 168 1 2)
    (by decide) (by decide) (by decide) (by decide) (by decide)
  ⟨by decide, by decide, h.1, h.2.2⟩


/-- The key of a routable address of the IPv4 class: 1, then forward bytes 12 and 13. -/
theorem key_ipv4 (x : CIP) (hx : x.WF) (hr : x.IsRoutable = true)
    (hc : x.IsIPv4 = true ∨ x.IsRFC6145 = true ∨ x.IsRFC6052 = true) :
    x.GetGroup = [1, x.ip.getD 12 0, x.ip.getD 13 0] := by
  have hc2 : (x.IsIPv4 || x.IsRFC6145 || x.IsRFC6052) = true := by
    rcases hc with h | h | h <;> simp [h]
  obtain ⟨b0, b1, b2, b3, b4, b5, b6, b7, b8, b9, b10, b11, b12, b13, b14, b15, rfl,
    h0, h1, h2, h3, h4, h5, h6, h7, h8, h9, h10, h11, h12, h13, h14, h15⟩ := hx.bytes
  unfold CIP.GetGroup
  rw [hr, hc2]
  simp only [Bool.not_true, if_true, Bool.false_eq_true, if_false]
  rw [show (16 : Nat) = 8 * 2 from rfl, GetGroup.loop_bytes]
  simp [List.range_succ, CIP.GetByte, Nat.mod_eq_of_lt, *]

/-- C2: a routable address that is IPv4-mapped, RFC6145 or RFC6052 has the 3-byte key
`[1, ip[12], ip[13]]`; two such addresses have equal keys exactly when they agree on forward
bytes 12 and 13 (for IPv4 addresses: on their first two octets). -/
theorem GetGroup_ipv4_class (x : CIP) (hx : x.WF) (hr : x.IsRoutable = true)
    (hc : x.IsIPv4 = true ∨ x.IsRFC6145 = true ∨ x.IsRFC6052 = true) :
    x.GetGroup = [1, x.ip.getD 12 0, x.ip.getD 13 0] ∧
    ∀ y : CIP, y.WF → y.IsRoutable = true →
      (y.IsIPv4 = true ∨ y.IsRFC6145 = true ∨ y.IsRFC6052 = true) →
      (x.GetGroup = y.GetGroup ↔
        (x.ip.getD 12 0 = y.ip.getD 12 0 ∧ x.ip.getD 13 0 = y.ip.getD 13 0)) := by
  refine ⟨key_ipv4 x hx hr hc, ?_⟩
  intro y hy hry hcy
  rw [key_ipv4 x hx hr hc, key_ipv4 y hy hry hcy]
  simp

/-- C2 witness: 8.8.8.8 and 8.8.4.4 share the key `[1, 8, 8]`; 8.8.8.8 and 8.9.8.8 do not
share a key. -/
theorem GetGroup_ipv4_class_witness :
    (CIP.ofIPv4 8 8 8 8).GetGroup = [1, 8, 8] ∧
    (CIP.ofIPv4 8 8 8 8).GetGroup = (CIP.ofIPv4 8 8 4 4).GetGroup ∧
    (CIP.ofIPv4 8 8 8 8).GetGroup ≠ (CIP.ofIPv4 8 9 8 8).GetGroup :=
  have h := GetGroup_ipv4_class (CIP.ofIPv4 8 8 8 8) (by decide) (by decide)
    (Or.inl (by decide))
  ⟨h.1,
   (h.2 (CIP.ofIPv4 8 8 4 4) (by decide) (by decide) (Or.inl (by decide))).mpr
     ⟨by decide, by decide⟩,
   fun e => absurd
     ((h.2 (CIP.ofIPv4 8 9 8 8) (by decide) (by decide) (Or.inl (by decide))).mp e).2
     (by decide)⟩


/-- The key of a Teredo address: 1, then forward bytes 12 and 13 with all bits flipped. -/
theorem key_teredo (x : CIP) (hx : x.WF) (hp : x.ip.take 4 = [0x20, 0x01, 0x00, 0x00]) :
    x.GetGroup = [1, x.ip.getD 12 0 ^^^ 0xFF, x.ip.getD 13 0 ^^^ 0xFF] := by
  obtain ⟨b0, b1, b2, b3, b4, b5, b6, b7, b8, b9, b10, b11, b12, b13, b14, b15, rfl,
    h0, h1, h2, h3, h4, h5, h6, h7, h8, h9, h10, h11, h12, h13, h14, h15⟩ := hx.bytes
  simp only [List.take_succ_cons, List.take_zero, List.cons.injEq, and_true] at hp
  obtain ⟨rfl, rfl, rfl, rfl⟩ := hp
  have x12 : b12 ^^^ 0xFF < 256 := Nat.xor_lt_two_pow (n := 8) h12 (by decide)
  have x13 : b13 ^^^ 0xFF < 256 := Nat.xor_lt_two_pow (n := 8) h13 (by decide)
  simp [CIP.GetGroup, CIP.IsRoutable, CIP.IsValid, CIP.IsRFC1918, CIP.IsRFC3927, CIP.IsRFC4862,
    CIP.IsRFC4193, CIP.IsRFC4843, CIP.IsLocal, CIP.IsRFC3849, CIP.IsIPv4, CIP.IsRFC6145,
    CIP.IsRFC6052, CIP.IsRFC3964, CIP.IsRFC4380, CIP.GetByte, memcmp, pchIPv4, pchRFC4862,
    pchRFC6145, pchRFC6052, pchLocal, boolToInt, Nat.mod_eq_of_lt, x12, x13,
    show (32 : Nat) &&& 254 = 32 from by decide]


/-- C3: an address in the Teredo prefix 2001:0000::/32 has the 3-byte key
`[1, ip[12] XOR 0xFF, ip[13] XOR 0xFF]`; two Teredo addresses with the same forward bytes 12
and 13 have equal keys, and the key equals that of every routable IPv4 address whose first
two octets are the de-obfuscated octets. -/
theorem GetGroup_teredo (x : CIP) (hx : x.WF) (hp : x.ip.take 4 = [0x20, 0x01, 0x00, 0x00]) :
    x.GetGroup = [1, x.ip.getD 12 0 ^^^ 0xFF, x.ip.getD 13 0 ^^^ 0xFF] ∧
    (∀ y : CIP, y.WF → y.ip.take 4 = [0x20, 0x01, 0x00, 0x00] →
      y.ip.getD 12 0 = x.ip.getD 12 0 → y.ip.getD 13 0 = x.ip.getD 13 0 →
      y.GetGroup = x.GetGroup) ∧
    (∀ v : CIP, v.WF → v.IsRoutable = true → v.IsIPv4 = true →
      v.ip.getD 12 0 = x.ip.getD 12 0 ^^^ 0xFF → v.ip.getD 13 0 = x.ip.getD 13 0 ^^^ 0xFF →
      v.GetGroup = x.GetGroup) := by
  refine ⟨key_teredo x hx hp, ?_, ?_⟩
  · intro y hy hpy e12 e13
    rw [key_teredo x hx hp, key_teredo y hy hpy, e12, e13]
  · intro v hv hrv h4 e12 e13
    rw [key_teredo x hx hp, key_ipv4 v hv hrv (Or.inl h4), e12, e13]

/-- C3 witness: the Teredo address 2001:0:4136:e378:8000:63bf:3fff:fdd2 (client 192.0.2.45)
has key `[1, 192, 0]`, shared with the Teredo address 2001:0::3fff:1 and with the IPv4
address 192.0.2.45. -/
theorem GetGroup_teredo_witness :
    (CIP.ofIPv6 [0x20, 0x01, 0, 0, 0x41, 0x36, 0xe3, 0x78, 0x80, 0, 0x63, 0xbf, 0x3f, 0xff,
      0xfd, 0xd2]).GetGroup = [1, 192, 0] ∧
    (CIP.ofIPv6 [0x20, 0x01, 0, 0, 0, 0, 0, 0, 0, 0, 0, 0, 0x3f, 0xff, 0, 1]).GetGroup
      = (CIP.ofIPv6 [0x20, 0x01, 0, 0, 0x41, 0x36, 0xe3, 0x78, 0x80, 0, 0x63, 0xbf, 0x3f, 0xff,
          0xfd, 0xd2]).GetGroup ∧
    (CIP.ofIPv4 192 0 2 45).GetGroup
      = (CIP.ofIPv6 [0x20, 0x01, 0, 0, 0x41, 0x36, 0xe3, 0x78, 0x80, 0, 0x63, 0xbf, 0x3f, 0xff,
          0xfd, 0xd2]).GetGroup :=
  have h := GetGroup_teredo
    (CIP.ofIPv6 [0x20, 0x01, 0, 0, 0x41, 0x36, 0xe3, 0x78, 0x80, 0, 0x63, 0xbf, 0x3f, 0xff,
      0xfd, 0xd2]) (by decide) (by decide)
  ⟨h.1,
   h.2.1 (CIP.ofIPv6 [0x20, 0x01, 0, 0, 0, 0, 0, 0, 0, 0, 0, 0, 0x3f, 0xff, 0, 1])
     (by decide) (by decide) (by decide) (by decide),
   h.2.2 (CIP.ofIPv4 192 0 2 45) (by decide) (by decide) (by decide) (by decide) (by decide)⟩

/-- The key of a 6to4 address: 1, then forward bytes 2 and 3. -/
theorem key_6to4 (x : CIP) (hx : x.WF) (hp : x.ip.take 2 = [0x20, 0x02]) :
    x.GetGroup = [1, x.ip.getD 2 0, x.ip.getD 3 0] := by
  obtain ⟨b0, b1, b2, b3, b4, b5, b6, b7, b8, b9, b10, b11, b12, b13, b14, b15, rfl,
    h0, h1, h2, h3, h4, h5, h6, h7, h8, h9, h10, h11, h12, h13, h14, h15⟩ := hx.bytes
  simp only [List.take_succ_cons, List.take_zero, List.cons.injEq, and_true] at hp
  obtain ⟨rfl, rfl⟩ := hp
  have hg : CIP.GetGroup ⟨[0x20, 0x02, b2, b3, b4, b5, b6, b7, b8, b9, b10, b11, b12, b13,
      b14, b15]⟩ = GetGroup.loop ⟨[0x20, 0x02, b2, b3, b4, b5, b6, b7, b8, b9, b10, b11, b12,
      b13, b14, b15]⟩ 2 (8 * 2) [1] := by
    simp [CIP.GetGroup, CIP.IsRoutable, CIP.IsValid, CIP.IsRFC1918, CIP.IsRFC3927,
      CIP.IsRFC4862, CIP.IsRFC4193, CIP.IsRFC4843, CIP.IsLocal, CIP.IsRFC3849, CIP.IsIPv4,
      CIP.IsRFC6145, CIP.IsRFC6052, CIP.IsRFC3964, CIP.GetByte, memcmp, pchIPv4, pchRFC4862,
      pchRFC6145, pchRFC6052, pchLocal, boolToInt,
      show (32 : Nat) &&& 254 = 32 from by decide]
  rw [hg, GetGroup.loop_bytes]
  simp [List.range_succ, CIP.GetByte, Nat.mod_eq_of_lt, *]

/-- C5: an address in the 6to4 prefix 2002::/16 has the 3-byte key `[1, ip[2], ip[3]]`, the
key of every routable IPv4 address whose first two octets are `ip[2]` and `ip[3]`. -/
theorem GetGroup_6to4 (x : CIP) (hx : x.WF) (hp : x.ip.take 2 = [0x20, 0x02]) :
    x.GetGroup = [1, x.ip.getD 2 0, x.ip.getD 3 0] ∧
    (∀ v : CIP, v.WF → v.IsRoutable = true → v.IsIPv4 = true →
      v.ip.getD 12 0 = x.ip.getD 2 0 → v.ip.getD 13 0 = x.ip.getD 3 0 →
      v.GetGroup = x.GetGroup) := by
  refine ⟨key_6to4 x hx hp, ?_⟩
  intro v hv hrv h4 e12 e13
  rw [key_6to4 x hx hp, key_ipv4 v hv hrv (Or.inl h4), e12, e13]

/-- C5 witness: the 6to4 address 2002:0808:0404::1 has key `[1, 8, 8]`, the key of 8.8.4.4. -/
theorem GetGroup_6to4_witness :
    (CIP.ofIPv6 [0x20, 0x02, 8, 8, 4, 4, 0, 0, 0, 0, 0, 0, 0, 0, 0, 1]).GetGroup = [1, 8, 8] ∧
    (CIP.ofIPv4 8 8 4 4).GetGroup
      = (CIP.ofIPv6 [0x20, 0x02, 8, 8, 4, 4, 0, 0, 0, 0, 0, 0, 0, 0, 0, 1]).GetGroup :=
  have h := GetGroup_6to4 (CIP.ofIPv6 [0x20, 0x02, 8, 8, 4, 4, 0, 0, 0, 0, 0, 0, 0, 0, 0, 1])
    (by decide) (by decide)
  ⟨h.1, h.2 (CIP.ofIPv4 8 8 4 4) (by decide) (by decide) (by decide) (by decide) (by decide)⟩

/-- The key of a routable address outside every special class: 0, then forward bytes 0..3. -/
theorem key_generic (x : CIP) (hx : x.WF) (hr : x.IsRoutable = true)
    (hv4 : x.IsIPv4 = false) (h6145 : x.IsRFC6145 = false) (h6052 : x.IsRFC6052 = false)
    (h3964 : x.IsRFC3964 = false) (h4380 : x.IsRFC4380 = false) (hhe : x.heNetTest = false) :
    x.GetGroup = 0 :: x.ip.take 4 := by
  obtain ⟨b0, b1, b2, b3, b4, b5, b6, b7, b8, b9, b10, b11, b12, b13, b14, b15, rfl,
    h0, h1, h2, h3, h4, h5, h6, h7, h8, h9, h10, h11, h12, h13, h14, h15⟩ := hx.bytes
  unfold CIP.GetGroup
  rw [hr, hv4, h6145, h6052, h3964, h4380, hhe]
  simp only [Bool.not_true, Bool.or_self, Bool.false_eq_true, if_false]
  rw [show (32 : Nat) = 8 * 4 from rfl, GetGroup.loop_bytes]
  simp [List.range_succ, CIP.GetByte, Nat.mod_eq_of_lt, *]

/-- C6: a routable address that is not IPv4-mapped, RFC6145, RFC6052, 6to4 or Teredo and
fails the he.net test of `GetGroup` has the 5-byte key `[0, ip[0], ip[1], ip[2], ip[3]]`; two
such addresses have equal keys if and only if they share their first four bytes. -/
theorem GetGroup_generic (x : CIP) (hx : x.WF) (hr : x.IsRoutable = true)
    (hv4 : x.IsIPv4 = false) (h6145 : x.IsRFC6145 = false) (h6052 : x.IsRFC6052 = false)
    (h3964 : x.IsRFC3964 = false) (h4380 : x.IsRFC4380 = false) (hhe : x.heNetTest = false) :
    x.GetGroup = [0, x.ip.getD 0 0, x.ip.getD 1 0, x.ip.getD 2 0, x.ip.getD 3 0] ∧
    (∀ y : CIP, y.WF → y.IsRoutable = true → y.IsIPv4 = false → y.IsRFC6145 = false →
      y.IsRFC6052 = false → y.IsRFC3964 = false → y.IsRFC4380 = false →
      y.heNetTest = false →
      (x.GetGroup = y.GetGroup ↔ x.ip.take 4 = y.ip.take 4)) := by
  have hk := key_generic x hx hr hv4 h6145 h6052 h3964 h4380 hhe
  refine ⟨?_, ?_⟩
  · rw [hk]
    obtain ⟨b0, b1, b2, b3, b4, b5, b6, b7, b8, b9, b10, b11, b12, b13, b14, b15, rfl, -⟩ :=
      hx.bytes
    simp
  · intro y hy hry g4 g6145 g6052 g3964 g4380 ghe
    rw [hk, key_generic y hy hry g4 g6145 g6052 g3964 g4380 ghe]
    simp

/-- C6 witness: 2001:4860:4860::8888 has key `[0, 0x20, 0x01, 0x48, 0x60]`, shared with
2001:4860:1::1 and not with 2001:4861::1. -/
theorem GetGroup_generic_witness :
    (CIP.ofIPv6 [0x20, 0x01, 0x48, 0x60, 0x48, 0x60, 0, 0, 0, 0, 0, 0, 0, 0, 0x88,
      0x88]).GetGroup = [0, 0x20, 0x01, 0x48, 0x60] ∧
    (CIP.ofIPv6 [0x20, 0x01, 0x48, 0x60, 0x48, 0x60, 0, 0, 0, 0, 0, 0, 0, 0, 0x88,
      0x88]).GetGroup
      = (CIP.ofIPv6 [0x20, 0x01, 0x48, 0x60, 0, 1, 0, 0, 0, 0, 0, 0, 0, 0, 0, 1]).GetGroup ∧
    (CIP.ofIPv6 [0x20, 0x01, 0x48, 0x60, 0x48, 0x60, 0, 0, 0, 0, 0, 0, 0, 0, 0x88,
      0x88]).GetGroup
      ≠ (CIP.ofIPv6 [0x20, 0x01, 0x48, 0x61, 0, 0, 0, 0, 0, 0, 0, 0, 0, 0, 0, 1]).GetGroup :=
  have h := GetGroup_generic
    (CIP.ofIPv6 [0x20, 0x01, 0x48, 0x60, 0x48, 0x60, 0, 0, 0, 0, 0, 0, 0, 0, 0x88, 0x88])
    (by decide) (by decide) (by decide) (by decide) (by decide) (by decide) (by decide)
    (by decide)
  ⟨h.1,
   (h.2 (CIP.ofIPv6 [0x20, 0x01, 0x48, 0x60, 0, 1, 0, 0, 0, 0, 0, 0, 0, 0, 0, 1])
     (by decide) (by decide) (by decide) (by decide) (by decide) (by decide) (by decide)
     (by decide)).mpr (by decide),
   fun e => absurd
     ((h.2 (CIP.ofIPv6 [0x20, 0x01, 0x48, 0x61, 0, 0, 0, 0, 0, 0, 0, 0, 0, 0, 0, 1])
       (by decide) (by decide) (by decide) (by decide) (by decide) (by decide) (by decide)
       (by decide)).mp e) (by decide)⟩


/-- C4: at the Hurricane Electric addresses 2001:470:1000::1 and 2001:470:2000::1, which differ
in the top nibble of forward byte 4, `GetGroup` returns the same 5-byte `/32` key: the `/36`
branch tests forward byte 1 against `0x11`, so it is taken by 2011:470:1000::1 instead. -/
theorem GetGroup_henet_eval :
    (CIP.ofIPv6 [0x20, 0x01, 0x04, 0x70, 0x10, 0, 0, 0, 0, 0, 0, 0, 0, 0, 0, 1]).GetGroup
      = [0, 0x20, 0x01, 0x04, 0x70] ∧
    (CIP.ofIPv6 [0x20, 0x01, 0x04, 0x70, 0x20, 0, 0, 0, 0, 0, 0, 0, 0, 0, 0, 1]).GetGroup
      = [0, 0x20, 0x01, 0x04, 0x70] ∧
    (CIP.ofIPv6 [0x20, 0x11, 0x04, 0x70, 0x10, 0, 0, 0, 0, 0, 0, 0, 0, 0, 0, 1]).GetGroup
      = [0, 0x20, 0x11, 0x04, 0x70, 0x1F] := by
  decide

/-- C7: `IsRoutable` is false on IPv4 127.0.0.0/8, 10.0.0.0/8, 192.168.0.0/16, 172.16.0.0/12
and 169.254.0.0/16, on the IPv6 loopback ::1, on FE80::/64, on FC00::/7 and on the all-zero
address; it is true for 8.8.8.8 and for 2001:4860:4860::8888. -/
theorem IsRoutable_classes :
    (∀ b c d : Nat, (CIP.ofIPv4 127 b c d).IsRoutable = false) ∧
    (∀ b c d : Nat, (CIP.ofIPv4 10 b c d).IsRoutable = false) ∧
    (∀ c d : Nat, (CIP.ofIPv4 192 168 c d).IsRoutable = false) ∧
    (∀ b c d : Nat, 16 ≤ b → b ≤ 31 → (CIP.ofIPv4 172 b c d).IsRoutable = false) ∧
    (∀ c d : Nat, (CIP.ofIPv4 169 254 c d).IsRoutable = false) ∧
    (CIP.ofIPv6 [0, 0, 0, 0, 0, 0, 0, 0, 0, 0, 0, 0, 0, 0, 0, 1]).IsRoutable = false ∧
    (∀ x : CIP, x.ip.take 8 = [0xFE, 0x80, 0, 0, 0, 0, 0, 0] → x.IsRoutable = false) ∧
    (∀ x : CIP, x.ip.getD 0 0 = 0xFC ∨ x.ip.getD 0 0 = 0xFD → x.IsRoutable = false) ∧
    (CIP.ofIPv6 [0, 0, 0, 0, 0, 0, 0, 0, 0, 0, 0, 0, 0, 0, 0, 0]).IsRoutable = false ∧
    (CIP.ofIPv4 8 8 8 8).IsRoutable = true ∧
    (CIP.ofIPv6 [0x20, 0x01, 0x48, 0x60, 0x48, 0x60, 0, 0, 0, 0, 0, 0, 0, 0, 0x88,
      0x88]).IsRoutable = true := by
  refine ⟨?_, ?_, ?_, ?_, ?_, by decide, ?_, ?_, by decide, by decide, by decide⟩
  · intro b c d
    simp [CIP.IsRoutable, CIP.IsLocal, CIP.IsIPv4, CIP.ofIPv4, CIP.Init, memcpy, memcmp,
      pchIPv4, CIP.GetByte]
  · intro b c d
    simp [CIP.IsRoutable, CIP.IsRFC1918, CIP.IsIPv4, CIP.ofIPv4, CIP.Init, memcpy, memcmp,
      pchIPv4, CIP.GetByte]
  · intro c d
    simp [CIP.IsRoutable, CIP.IsRFC1918, CIP.IsIPv4, CIP.ofIPv4, CIP.Init, memcpy, memcmp,
      pchIPv4, CIP.GetByte]
  · intro b c d h16 h31
    simp [CIP.IsRoutable, CIP.IsRFC1918, CIP.IsIPv4, CIP.ofIPv4, CIP.Init, memcpy, memcmp,
      pchIPv4, CIP.GetByte, h16, h31]
  · intro c d
    simp [CIP.IsRoutable, CIP.IsRFC3927, CIP.IsIPv4, CIP.ofIPv4, CIP.Init, memcpy, memcmp,
      pchIPv4, CIP.GetByte]
  · intro x hp
    have hlen : 8 ≤ x.ip.length := by
      have h := congrArg List.length hp
      simp only [List.length_take, List.length_cons, List.length_nil] at h
      omega
    have h62 : x.IsRFC4862 = true := by
      unfold CIP.IsRFC4862
      rw [beq_iff_eq, memcmp_eq_zero_iff 8 x.ip pchRFC4862 hlen (by decide), hp]
      rfl
    simp [CIP.IsRoutable, h62]
  · intro x hb
    have h93 : x.IsRFC4193 = true := by
      unfold CIP.IsRFC4193 CIP.GetByte
      rcases hb with h | h <;> rw [h] <;> decide
    simp [CIP.IsRoutable, h93]

/-- C7 witness: 127.0.0.1, 10.1.2.3, 192.168.0.1, 172.20.0.5, 169.254.1.1, FE80::1 and
FC00::1 are not routable. -/
theorem IsRoutable_classes_witness :
    (CIP.ofIPv4 127 0 0 1).IsRoutable = false ∧ (CIP.ofIPv4 10 1 2 3).IsRoutable = false ∧
    (CIP.ofIPv4 192 168 0 1).IsRoutable = false ∧ (CIP.ofIPv4 172 20 0 5).IsRoutable = false ∧
    (CIP.ofIPv4 169 254 1 1).IsRoutable = false ∧
    (CIP.ofIPv6 [0xFE, 0x80, 0, 0, 0, 0, 0, 0, 0, 0, 0, 0, 0, 0, 0, 1]).IsRoutable = false ∧
    (CIP.ofIPv6 [0xFC, 0, 0, 0, 0, 0, 0, 0, 0, 0, 0, 0, 0, 0, 0, 1]).IsRoutable = false :=
  have h := IsRoutable_classes
  ⟨h.1 0 0 1, h.2.1 1 2 3, h.2.2.1 0 1, h.2.2.2.1 20 0 5 (by decide) (by decide),
   h.2.2.2.2.1 1 1,
   h.2.2.2.2.2.2.1 (CIP.ofIPv6 [0xFE, 0x80, 0, 0, 0, 0, 0, 0, 0, 0, 0, 0, 0, 0, 0, 1])
     (by decide),
   h.2.2.2.2.2.2.2.1 (CIP.ofIPv6 [0xFC, 0, 0, 0, 0, 0, 0, 0, 0, 0, 0, 0, 0, 0, 0, 1])
     (Or.inl (by decide))⟩

/-- C8: `IsRFC4843` returns false for every address, also for 2001:10::1 in the ORCHID
prefix 2001:0010::/28: its last conjunct is `GetByte(12) & (0xF0 == 0x10)`, which is zero. -/
theorem IsRFC4843_false :
    (∀ x : CIP, x.IsRFC4843 = false) ∧
    (CIP.ofIPv6 [0x20, 0x01, 0x00, 0x10, 0, 0, 0, 0, 0, 0, 0, 0, 0, 0, 0, 1]).ip.take 4
      = [0x20, 0x01, 0x00, 0x10] ∧
    (CIP.ofIPv6 [0x20, 0x01, 0x00, 0x10, 0, 0, 0, 0, 0, 0, 0, 0, 0, 0, 0, 1]).IsRFC4843
      = false := by
  refine ⟨?_, by decide, by decide⟩
  intro x
  simp [CIP.IsRFC4843, boolToInt]


/-- The reconstruction of `GetHash`, when it has a value, has the value 0: a non-zero first
operand is shifted by at least 40 bits in all and leaves the range of `int`. -/
theorem ipv4Value_zero_or_none (b0 b1 b2 b3 : Nat) :
    GetHash.ipv4Value b0 b1 b2 b3 = some 0 ∨ GetHash.ipv4Value b0 b1 b2 b3 = none := by
  unfold GetHash.ipv4Value shlInt
  by_cases h0 : b0 = 0
  · subst h0
    by_cases c1 : 24 + b1 < 32 <;> by_cases c2 : 16 + b2 < 32 <;> by_cases c3 : 8 + b3 < 32 <;>
      simp [c1, c2, c3]
  · right
    by_cases c1 : 24 + b1 < 32 ∧ b0 * 2 ^ (24 + b1) < 2 ^ 31
    · have hbig : ¬ (16 + b2 < 32 ∧ b0 * 2 ^ (24 + b1) * 2 ^ (16 + b2) < 2 ^ 31) := by
        rintro ⟨-, hlt⟩
        have h1 : 2 ^ 24 ≤ 2 ^ (24 + b1) := Nat.pow_le_pow_right (by decide) (by omega)
        have h2 : 2 ^ 16 ≤ 2 ^ (16 + b2) := Nat.pow_le_pow_right (by decide) (by omega)
        have h3 : 1 * 2 ^ 24 ≤ b0 * 2 ^ (24 + b1) := Nat.mul_le_mul (by omega) h1
        have h4 : 1 * 2 ^ 24 * 2 ^ 16 ≤ b0 * 2 ^ (24 + b1) * 2 ^ (16 + b2) :=
          Nat.mul_le_mul h3 h2
        have h5 : (2 : Nat) ^ 31 < 1 * 2 ^ 24 * 2 ^ 16 := by decide
        omega
      simp only [if_pos c1, Option.some_bind, if_neg hbig, Option.none_bind]
    · simp only [if_neg c1, Option.none_bind]

/-- The hash of an IPv4-mapped address is 0 or has no defined value. -/
theorem GetHash_ipv4_zero_or_none (a b c d : Nat) :
    (CIP.ofIPv4 a b c d).GetHash = some 0 ∨ (CIP.ofIPv4 a b c d).GetHash = none := by
  have e : (CIP.ofIPv4 a b c d).GetHash
      = (GetHash.ipv4Value d c b a).map (fun ip => (ip : Int) * 7789) := by
    simp [CIP.GetHash, CIP.IsIPv4, CIP.ofIPv4, CIP.Init, memcpy, memcmp, pchIPv4, CIP.GetByte]
  rw [e]
  rcases ipv4Value_zero_or_none d c b a with h | h <;> rw [h]
  · left; rfl
  · right; rfl

/-- C9: at 0.1.1.0, where the big-endian and the byte-reversed value of the four bytes are
both 65792 and every shift of the reconstruction is defined, `GetHash` returns 0, not
65792 * 7789; at 1.0.0.0 it returns 0, not `2^24 * 7789`; for every IPv4-mapped address the
hash is 0 or undefined, because the initialiser is `GetByte(0) << (24 + GetByte(1)) << ...`
(`+` binds tighter than `<<`). -/
theorem GetHash_ipv4_not_big_endian :
    (CIP.ofIPv4 0 1 1 0).GetHash = some 0 ∧
    (CIP.ofIPv4 0 1 1 0).GetHash ≠ some ((0 * 2 ^ 24 + 1 * 2 ^ 16 + 1 * 2 ^ 8 + 0) * 7789) ∧
    (CIP.ofIPv4 1 0 0 0).GetHash = some 0 ∧
    (CIP.ofIPv4 1 0 0 0).GetHash ≠ some ((1 * 2 ^ 24 + 0 * 2 ^ 16 + 0 * 2 ^ 8 + 0) * 7789) ∧
    (∀ a b c d : Nat, (CIP.ofIPv4 a b c d).GetHash = some 0 ∨
      (CIP.ofIPv4 a b c d).GetHash = none) :=
  ⟨by decide, by decide, by decide, by decide, GetHash_ipv4_zero_or_none⟩

/-- The stored key: the sixteen address bytes, then the port, high byte first. -/
theorem key_port_bytes (x : CIPPort) (hx : x.WF) :
    x.GetKey = x.ip ++ [x.port / 256, x.port % 256] := by
  obtain ⟨⟨ip⟩, port⟩ := x
  obtain ⟨hw, hp⟩ := hx
  obtain ⟨b0, b1, b2, b3, b4, b5, b6, b7, b8, b9, b10, b11, b12, b13, b14, b15, e, -⟩ :=
    hw.bytes
  simp only [CIP.mk.injEq] at e
  subst e
  simp only at hp
  have h1 : port / 256 < 256 := by omega
  have h2 : port &&& 255 = port % 256 := Nat.and_pow_two_sub_one_eq_mod port 8
  simp [CIPPort.GetKey, memcpy, List.set, Nat.mod_eq_of_lt h1, h2]

/-- C10: `GetKey` returns exactly 18 bytes, the sixteen stored address bytes in order followed
by `port div 256` and `port mod 256`; two address/port values have the same key if and only
if they have the same address bytes and the same port. -/
theorem GetKey_layout_injective (x : CIPPort) (hx : x.WF) :
    x.GetKey = x.ip ++ [x.port / 256, x.port % 256] ∧ x.GetKey.length = 18 ∧
    x.GetKey.take 16 = x.ip ∧ x.GetKey.getD 16 0 = x.port / 256 ∧
    x.GetKey.getD 17 0 = x.port % 256 ∧
    (∀ y : CIPPort, y.WF → (x.GetKey = y.GetKey ↔ (x.ip = y.ip ∧ x.port = y.port))) := by
  have hk := key_port_bytes x hx
  have hl : x.ip.length = 16 := hx.1.1
  refine ⟨hk, ?_, ?_, ?_, ?_, ?_⟩
  · rw [hk, List.length_append, hl]; rfl
  · rw [hk, List.take_left' hl]
  · rw [hk, List.getD_append_right _ _ _ _ (by omega), hl]; rfl
  · rw [hk, List.getD_append_right _ _ _ _ (by omega), hl]; rfl
  · intro y hy
    rw [hk, key_port_bytes y hy]
    constructor
    · intro h
      have hly : y.ip.length = 16 := hy.1.1
      obtain ⟨h1, h2⟩ := List.append_inj h (by rw [hl, hly])
      refine ⟨h1, ?_⟩
      simp only [List.cons.injEq, and_true] at h2
      have ex := Nat.div_add_mod x.port 256
      have ey := Nat.div_add_mod y.port 256
      omega
    · rintro ⟨h1, h2⟩
      rw [h1, h2]

/-- C10 witness: the key of 1.2.3.4 port 8333 is the mapped address followed by `0x20 0x8d`,
and differs from the key of 1.2.3.4 port 8334. -/
theorem GetKey_layout_injective_witness :
    (CIPPort.mk (CIP.ofIPv4 1 2 3 4) 8333).GetKey
      = [0, 0, 0, 0, 0, 0, 0, 0, 0, 0, 0xff, 0xff, 1, 2, 3, 4, 0x20, 0x8d] ∧
    (CIPPort.mk (CIP.ofIPv4 1 2 3 4) 8333).GetKey
      ≠ (CIPPort.mk (CIP.ofIPv4 1 2 3 4) 8334).GetKey :=
  have h := GetKey_layout_injective (CIPPort.mk (CIP.ofIPv4 1 2 3 4) 8333) (by decide)
  ⟨h.1, fun e => absurd
    ((h.2.2.2.2.2 (CIPPort.mk (CIP.ofIPv4 1 2 3 4) 8334) (by decide)).mp e).2 (by decide)⟩


/-! ## Ordering -/

theorem lexLt_irrefl : ∀ l : List Nat, lexLt l l = false := by
  intro l
  induction l with
  | nil => rfl
  | cons x xs ih => simp [lexLt, ih]

theorem lexLt_trans : ∀ a b c : List Nat, lexLt a b = true → lexLt b c = true →
    lexLt a c = true := by
  intro a
  induction a with
  | nil =>
    intro b c hab hbc
    cases b with
    | nil => simp [lexLt] at hab
    | cons y ys =>
      cases c with
      | nil => simp [lexLt] at hbc
      | cons z zs => rfl
  | cons x xs ih =>
    intro b c hab hbc
    cases b with
    | nil => simp [lexLt] at hab
    | cons y ys =>
      cases c with
      | nil => simp [lexLt] at hbc
      | cons z zs =>
        simp only [lexLt, Bool.or_eq_true, decide_eq_true_eq, Bool.and_eq_true, beq_iff_eq]
          at hab hbc ⊢
        rcases hab with h1 | ⟨h1, h2⟩
        · rcases hbc with h3 | ⟨h3, _⟩
          · left; omega
          · left; omega
        · rcases hbc with h3 | ⟨h3, h4⟩
          · left; omega
          · right; exact ⟨by omega, ih ys zs h2 h4⟩

theorem lexLt_total : ∀ a b : List Nat, a ≠ b → lexLt a b = true ∨ lexLt b a = true := by
  intro a
  induction a with
  | nil =>
    intro b h
    cases b with
    | nil => exact absurd rfl h
    | cons y ys => left; rfl
  | cons x xs ih =>
    intro b h
    cases b with
    | nil => right; rfl
    | cons y ys =>
      simp only [lexLt, Bool.or_eq_true, decide_eq_true_eq, Bool.and_eq_true, beq_iff_eq]
      rcases Nat.lt_trichotomy x y with h1 | h1 | h1
      · left; left; exact h1
      · subst h1
        have hne : xs ≠ ys := fun e => h (by rw [e])
        rcases ih ys hne with h2 | h2
        · left; right; exact ⟨rfl, h2⟩
        · right; right; exact ⟨rfl, h2⟩
      · right; left; exact h1

theorem lexLt_asymm (a b : List Nat) (h : lexLt a b = true) : lexLt b a = false := by
  cases hba : lexLt b a with
  | false => rfl
  | true =>
    have := lexLt_trans a b a h hba
    rw [lexLt_irrefl] at this
    exact absurd this (by decide)

theorem lexLt_append_singleton : ∀ (as bs : List Nat) (p q : Nat), as.length = bs.length →
    lexLt (as ++ [p]) (bs ++ [q]) = (lexLt as bs || (as == bs && decide (p < q))) := by
  intro as
  induction as with
  | nil =>
    intro bs p q h
    cases bs with
    | nil => simp [lexLt]
    | cons y ys => simp at h
  | cons x xs ih =>
    intro bs p q h
    cases bs with
    | nil => simp at h
    | cons y ys =>
      have h1 : xs.length = ys.length := by simpa using h
      by_cases hxy : x = y
      · subst hxy
        simp [lexLt, ih ys p q h1]
      · have hb : (x == y) = false := beq_false_of_ne hxy
        simp [lexLt, hb]

/-- Comparing `n` bytes is negative exactly when the first `n` bytes are lexicographically
smaller. -/
theorem memcmp_neg_iff : ∀ (n : Nat) (a b : List Nat), n ≤ a.length → n ≤ b.length →
    (memcmp a b n < 0 ↔ lexLt (a.take n) (b.take n) = true) := by
  intro n
  induction n with
  | zero => intro a b _ _; simp [memcmp, lexLt]
  | succ n ih =>
    intro a b ha hb
    cases a with
    | nil => simp at ha
    | cons x as =>
      cases b with
      | nil => simp at hb
      | cons y bs =>
        have ha1 : n ≤ as.length := by simpa using ha
        have hb1 : n ≤ bs.length := by simpa using hb
        rw [memcmp]
        simp only [List.take_succ_cons, lexLt, Bool.or_eq_true, decide_eq_true_eq,
          Bool.and_eq_true, beq_iff_eq]
        by_cases h1 : x < y
        · simp [h1]
        · by_cases h2 : y < x
          · simp only [h1, h2, if_true, if_false, false_or]
            constructor
            · intro h; exact absurd h (by decide)
            · intro h; omega
          · have hxy : x = y := by omega
            subst hxy
            simp only [lt_self_iff_false, if_false, false_or, true_and]
            exact ih as bs ha1 hb1

theorem CIP.addrLt_lex (a b : CIP) (ha : a.WF) (hb : b.WF) :
    a.opLt b = lexLt a.ip b.ip := by
  have h := memcmp_neg_iff 16 a.ip b.ip (by rw [ha.1]) (by rw [hb.1])
  rw [List.take_of_length_le (by rw [ha.1]), List.take_of_length_le (by rw [hb.1])] at h
  unfold CIP.opLt
  cases hl : lexLt a.ip b.ip with
  | true => simpa using h.mpr hl
  | false =>
    simp only [decide_eq_false_iff_not]
    intro hm
    rw [h.mp hm] at hl
    exact absurd hl (by decide)

theorem CIP.addrEq_iff (a b : CIP) (ha : a.WF) (hb : b.WF) : a.opEq b = true ↔ a = b := by
  have h := memcmp_eq_zero_iff 16 a.ip b.ip (by rw [ha.1]) (by rw [hb.1])
  rw [List.take_of_length_le (by rw [ha.1]), List.take_of_length_le (by rw [hb.1])] at h
  unfold CIP.opEq
  rw [beq_iff_eq, h]
  constructor
  · intro e; cases a; cases b; simpa using e
  · intro e; rw [e]

theorem CIPPort.portLt_lex (a b : CIPPort) (ha : a.WF) (hb : b.WF) :
    a.opLt b = lexLt a.sortKey b.sortKey := by
  unfold CIPPort.opLt CIPPort.sortKey
  rw [lexLt_append_singleton a.ip b.ip a.port b.port (by rw [ha.1.1, hb.1.1]),
    CIP.addrLt_lex a.toCIP b.toCIP ha.1 hb.1]
  congr 2
  cases h : a.toCIP.opEq b.toCIP with
  | true =>
    have := (CIP.addrEq_iff a.toCIP b.toCIP ha.1 hb.1).mp h
    rw [this]; simp
  | false =>
    have hne : a.ip ≠ b.ip := by
      intro e
      have : a.toCIP = b.toCIP := by
        cases a with | mk ca pa => cases b with | mk cb pb => cases ca; cases cb; simpa using e
      have h2 := (CIP.addrEq_iff a.toCIP b.toCIP ha.1 hb.1).mpr this
      rw [h] at h2
      exact absurd h2 (by decide)
    simp [hne]

theorem CIPPort.portEq_iff (a b : CIPPort) (ha : a.WF) (hb : b.WF) :
    a.opEq b = true ↔ a = b := by
  unfold CIPPort.opEq
  rw [Bool.and_eq_true, CIP.addrEq_iff a.toCIP b.toCIP ha.1 hb.1, beq_iff_eq]
  constructor
  · rintro ⟨h1, h2⟩
    cases a; cases b
    simp only at h1 h2
    rw [h1, h2]
  · intro e; rw [e]; exact ⟨rfl, rfl⟩

theorem CIPPort.sortKey_inj (a b : CIPPort) (ha : a.WF) (hb : b.WF)
    (h : a.sortKey = b.sortKey) : a = b := by
  unfold CIPPort.sortKey at h
  obtain ⟨h1, h2⟩ := List.append_inj h (by rw [ha.1.1, hb.1.1])
  cases a with
  | mk ca pa =>
    cases b with
    | mk cb pb =>
      cases ca; cases cb
      simp only [List.cons.injEq, and_true] at h1 h2
      simp [h1, h2]


/-- C11: on well-formed values `operator<` of `CIPPort` is the lexicographic order on the
sixteen address bytes followed by the port; it is irreflexive and transitive, exactly one of
`a < b`, `a == b`, `b < a` holds, `operator==` is equality of values, and `operator!=` is the
negation of `operator==` for `CIPPort` and for `CIP`. -/
theorem opLt_strict_total (a b c : CIPPort) (ha : a.WF) (hb : b.WF) (hc : c.WF) :
    a.opLt b = lexLt a.sortKey b.sortKey ∧
    a.opLt a = false ∧
    (a.opLt b = true → b.opLt c = true → a.opLt c = true) ∧
    ((a.opLt b = true ∧ a.opEq b = false ∧ b.opLt a = false) ∨
     (a.opLt b = false ∧ a.opEq b = true ∧ b.opLt a = false) ∨
     (a.opLt b = false ∧ a.opEq b = false ∧ b.opLt a = true)) ∧
    (a.opEq b = true ↔ a = b) ∧
    a.opNe b = !a.opEq b ∧
    a.toCIP.opNe b.toCIP = !a.toCIP.opEq b.toCIP := by
  have hab := CIPPort.portLt_lex a b ha hb
  have hba := CIPPort.portLt_lex b a hb ha
  have heq := CIPPort.portEq_iff a b ha hb
  refine ⟨hab, ?_, ?_, ?_, heq, ?_, ?_⟩
  · rw [CIPPort.portLt_lex a a ha ha, lexLt_irrefl]
  · rw [hab, CIPPort.portLt_lex b c hb hc, CIPPort.portLt_lex a c ha hc]
    exact lexLt_trans _ _ _
  · rw [hab, hba]
    by_cases e : a = b
    · right; left
      subst e
      exact ⟨lexLt_irrefl _, heq.mpr rfl, lexLt_irrefl _⟩
    · have hne : a.opEq b = false := by
        cases h : a.opEq b with
        | false => rfl
        | true => exact absurd (heq.mp h) e
      have hk : a.sortKey ≠ b.sortKey := fun h => e (CIPPort.sortKey_inj a b ha hb h)
      rcases lexLt_total _ _ hk with h | h
      · left; exact ⟨h, hne, lexLt_asymm _ _ h⟩
      · right; right; exact ⟨lexLt_asymm _ _ h, hne, h⟩
  · unfold CIPPort.opNe CIPPort.opEq CIP.opNe CIP.opEq
    simp only [bne, Bool.not_and]
  · unfold CIP.opNe CIP.opEq
    rfl

/-- C11 witness: 1.2.3.4:80 is below 1.2.3.4:81, which is below 1.2.4.0:0, and therefore
1.2.3.4:80 is below 1.2.4.0:0 and not conversely. -/
theorem opLt_strict_total_witness :
    (CIPPort.mk (CIP.ofIPv4 1 2 3 4) 80).opLt (CIPPort.mk (CIP.ofIPv4 1 2 4 0) 0) = true ∧
    (CIPPort.mk (CIP.ofIPv4 1 2 3 4) 80).opLt (CIPPort.mk (CIP.ofIPv4 1 2 3 4) 80) = false ∧
    (CIPPort.mk (CIP.ofIPv4 1 2 3 4) 80).opNe (CIPPort.mk (CIP.ofIPv4 1 2 3 4) 81) = true :=
  have h := opLt_strict_total (CIPPort.mk (CIP.ofIPv4 1 2 3 4) 80)
    (CIPPort.mk (CIP.ofIPv4 1 2 3 4) 81) (CIPPort.mk (CIP.ofIPv4 1 2 4 0) 0)
    (by decide) (by decide) (by decide)
  ⟨h.2.2.1 (by decide) (by decide), h.2.1, h.2.2.2.2.2.1.trans (by decide)⟩


/-! ## Exclusive class tests -/

/-- At most one of the six class tests of `GetGroup` holds for a sixteen-byte address. -/
theorem class_tests_exclusive (x : CIP) (hx : x.WF) :
    ([x.IsIPv4, x.IsRFC6145, x.IsRFC6052, x.IsRFC3964, x.IsRFC4380, x.heNetTest].count true)
      ≤ 1 := by
  obtain ⟨b0, b1, b2, b3, b4, b5, b6, b7, b8, b9, b10, b11, b12, b13, b14, b15, rfl, -⟩ :=
    hx.bytes
  have e4 : CIP.IsIPv4 ⟨[b0, b1, b2, b3, b4, b5, b6, b7, b8, b9, b10, b11, b12, b13, b14,
      b15]⟩ = decide ([b0, b1, b2, b3, b4, b5, b6, b7, b8, b9, b10, b11] = pchIPv4) := by
    unfold CIP.IsIPv4
    rw [Bool.eq_iff_iff, beq_iff_eq, memcmp_eq_zero_iff 12 _ _ (by simp) (by decide)]
    simp [pchIPv4]
  have e45 : CIP.IsRFC6145 ⟨[b0, b1, b2, b3, b4, b5, b6, b7, b8, b9, b10, b11, b12, b13, b14,
      b15]⟩ = decide ([b0, b1, b2, b3, b4, b5, b6, b7, b8, b9, b10, b11] = pchRFC6145) := by
    unfold CIP.IsRFC6145
    rw [Bool.eq_iff_iff, beq_iff_eq, memcmp_eq_zero_iff 12 _ _ (by simp) (by decide)]
    simp [pchRFC6145]
  have e52 : CIP.IsRFC6052 ⟨[b0, b1, b2, b3, b4, b5, b6, b7, b8, b9, b10, b11, b12, b13, b14,
      b15]⟩ = decide ([b0, b1, b2, b3, b4, b5, b6, b7, b8, b9, b10, b11] = pchRFC6052) := by
    unfold CIP.IsRFC6052
    rw [Bool.eq_iff_iff, beq_iff_eq, memcmp_eq_zero_iff 12 _ _ (by simp) (by decide)]
    simp [pchRFC6052]
  rw [e4, e45, e52]
  simp only [CIP.IsRFC3964, CIP.IsRFC4380, CIP.heNetTest, CIP.GetByte, pchIPv4, pchRFC6145,
    pchRFC6052, List.cons.injEq]
  by_cases h0 : b0 = 0
  · subst h0
    by_cases h1 : b1 = 0
    · subst h1
      by_cases h8 : b8 = 0
      · subst h8
        first | (simp [List.count_cons, *]; done) | (simp [List.count_cons, *]; split <;> omega)
      · first | (simp [List.count_cons, *]; done) | (simp [List.count_cons, *]; split <;> omega)
    · first | (simp [List.count_cons, *]; done) | (simp [List.count_cons, *]; split <;> omega)
  · by_cases h20 : b0 = 32
    · subst h20
      by_cases h1 : b1 = 1
      · subst h1
        first | (simp [List.count_cons, *]; done) | (simp [List.count_cons, *]; split <;> omega)
      · by_cases h2 : b1 = 2
        · subst h2
          simp [List.count_cons, *]
        · first | (simp [List.count_cons, *]; done) | (simp [List.count_cons, *]; split <;> omega)
    · simp [List.count_cons, *]


theorem firstMatch_perm (l l' : List (Bool × List Nat)) (hp : l.Perm l')
    (hu : ∀ a ∈ l, ∀ b ∈ l, a.1 = true → b.1 = true → a.2 = b.2) (d : List Nat) :
    GetGroup.firstMatch l d = GetGroup.firstMatch l' d := by
  unfold GetGroup.firstMatch
  cases h1 : l.find? (fun b => b.1) with
  | none =>
    cases h2 : l'.find? (fun b => b.1) with
    | none => rfl
    | some b =>
      have hb := List.mem_of_find?_eq_some h2
      have hpb := List.find?_some h2
      rw [List.find?_eq_none] at h1
      exact absurd hpb (h1 b (hp.mem_iff.mpr hb))
  | some a =>
    have ha := List.mem_of_find?_eq_some h1
    have hpa := List.find?_some h1
    cases h2 : l'.find? (fun b => b.1) with
    | none =>
      rw [List.find?_eq_none] at h2
      exact absurd hpa (h2 a (hp.mem_iff.mp ha))
    | some b =>
      have hb := List.mem_of_find?_eq_some h2
      have hpb := List.find?_some h2
      exact hu a ha b (hp.mem_iff.mpr hb) hpa hpb

theorem GetGroup_eq_firstMatch (x : CIP) (hr : x.IsRoutable = true) :
    x.GetGroup = GetGroup.firstMatch (GetGroup.branches x) (GetGroup.loop x 0 32 [0 % 256]) := by
  unfold CIP.GetGroup GetGroup.firstMatch GetGroup.branches
  rw [hr]
  cases x.IsIPv4 <;> cases x.IsRFC6145 <;> cases x.IsRFC6052 <;> cases x.IsRFC3964 <;>
    cases x.IsRFC4380 <;> cases x.heNetTest <;> simp [List.find?]

theorem branches_unique (x : CIP) (hx : x.WF) :
    ∀ a ∈ GetGroup.branches x, ∀ b ∈ GetGroup.branches x,
      a.1 = true → b.1 = true → a.2 = b.2 := by
  have hex := class_tests_exclusive x hx
  intro a ha b hb hta htb
  unfold GetGroup.branches at ha hb
  simp only [List.mem_cons, List.mem_singleton, List.not_mem_nil, or_false] at ha hb
  rcases ha with rfl | rfl | rfl | rfl | rfl | rfl <;>
    rcases hb with rfl | rfl | rfl | rfl | rfl | rfl <;>
    first
    | rfl
    | (exfalso
       simp only at hta htb
       simp only [hta, htb, List.count_cons, List.count_nil, beq_self_eq_true, if_true] at hex
       omega)

/-- C19: at most one of the tests `IsIPv4`, `IsRFC6145`, `IsRFC6052`, `IsRFC3964`,
`IsRFC4380` and the he.net prefix test holds for a sixteen-byte address; so for a routable
address, taking the key of the first test that holds gives the key of `GetGroup` in whatever
order the tests are tried. -/
theorem GetGroup_order_independent (x : CIP) (hx : x.WF) :
    ([x.IsIPv4, x.IsRFC6145, x.IsRFC6052, x.IsRFC3964, x.IsRFC4380, x.heNetTest].count true)
      ≤ 1 ∧
    (x.IsRoutable = true → ∀ l : List (Bool × List Nat), l.Perm (GetGroup.branches x) →
      GetGroup.firstMatch l (GetGroup.loop x 0 32 [0 % 256]) = x.GetGroup) := by
  refine ⟨class_tests_exclusive x hx, ?_⟩
  intro hr l hp
  rw [GetGroup_eq_firstMatch x hr]
  exact (firstMatch_perm _ _ hp.symm (branches_unique x hx) _).symm

/-- C19 witness: for 8.8.8.8 trying the six tests in the reverse order still gives the key
`[1, 8, 8]`. -/
theorem GetGroup_order_independent_witness :
    GetGroup.firstMatch (GetGroup.branches (CIP.ofIPv4 8 8 8 8)).reverse
      (GetGroup.loop (CIP.ofIPv4 8 8 8 8) 0 32 [0 % 256]) = [1, 8, 8] :=
  ((GetGroup_order_independent (CIP.ofIPv4 8 8 8 8) (by decide)).2 (by decide)
    (GetGroup.branches (CIP.ofIPv4 8 8 8 8)).reverse (List.reverse_perm _)).trans (by decide)


/-! ## The connect routine -/

theorem Int_land_zero (f : Int) : Int.land f 0 = 0 := by
  cases f with
  | ofNat m =>
    show Int.land (Int.ofNat m) (Int.ofNat 0) = 0
    simp [Int.land]
  | negSucc m =>
    show Int.land (Int.negSucc m) (Int.ofNat 0) = 0
    simp [Int.land, Nat.ldiff]

/-- With a `closesocket` that leaves its argument unchanged the same input gives two closes
of descriptor 3, with `connect` issued on it in between. -/
theorem plain_close_twice :
    (CIPPort.ConnectSocket closesocketPlain ⟨false, false, 0x800, some 3, 2, true, true,
      SockErr.other, 0, false, 0, 0, false⟩ 5000)
      = ⟨false, none, [SysCall.socket, SysCall.fcntl_getfl 3, SysCall.fcntl_setfl 3 0x802,
         SysCall.closesocket 3, SysCall.connect 3, SysCall.closesocket 3]⟩ := by
  decide

/-- With a `closesocket` that leaves its argument unchanged, a failed `fcntl(F_SETFL)`
followed by a `connect` that succeeds makes the routine return true with descriptor 3, which
it has closed. -/
theorem plain_close_returns_closed :
    (CIPPort.ConnectSocket closesocketPlain ⟨false, false, 0x800, some 3, 2, true, false,
      SockErr.other, 0, false, 0, 2, false⟩ 5000)
      = ⟨true, some 3, [SysCall.socket, SysCall.fcntl_getfl 3, SysCall.fcntl_setfl 3 0x802,
         SysCall.closesocket 3, SysCall.connect 3, SysCall.fcntl_getfl 3,
         SysCall.fcntl_setfl 3 0]⟩ := by
  decide

/-- C20: the value passed to the restoring `fcntl(F_SETFL)` is `fFlags & !O_NONBLOCK`, which
is 0 for every flag word and every non-zero `O_NONBLOCK`; with `O_NONBLOCK = 0x800` and
`F_GETFL` returning `0xC02` (read-write, append, non-blocking) a connect that succeeds at
once ends with `fcntl(3, F_SETFL, 0)`, not with `0x402`, whatever `closesocket` is. -/
theorem ConnectSocket_restore_clears_all :
    (∀ (fFlags : Int) (nb : Nat), ConnectSocket.restoreFlags (nb + 1) fFlags = 0) ∧
    (∀ closesocket : CloseSocket,
      CIPPort.ConnectSocket closesocket ⟨false, false, 0x800, some 3, 0x402, false, false,
        SockErr.other, 0, false, 0, 0xC02, false⟩ 5000
      = ⟨true, some 3, [SysCall.socket, SysCall.fcntl_getfl 3, SysCall.fcntl_setfl 3 0xC02,
          SysCall.connect 3, SysCall.fcntl_getfl 3, SysCall.fcntl_setfl 3 0]⟩) := by
  refine ⟨?_, fun _ => rfl⟩
  intro fFlags nb
  have h : (((nb : Int) + 1) == 0) = false := by
    rw [beq_eq_false_iff_ne]
    omega
  unfold ConnectSocket.restoreFlags
  rw [h]
  exact Int_land_zero fFlags


/-! ## Name lookup -/

theorem strrchr_none (c : Char) : ∀ s : List Char, c ∉ s → strrchr s c = none := by
  intro s
  induction s with
  | nil => intro _; rfl
  | cons x t ih =>
    intro h
    simp only [List.mem_cons, not_or] at h
    rw [strrchr, ih h.2]
    have : ¬ x = c := fun e => h.1 e.symm
    simp [this]

theorem strrchr_append (c : Char) (b : List Char) (hb : c ∉ b) :
    ∀ a : List Char, strrchr (a ++ c :: b) c = some a.length := by
  intro a
  induction a with
  | nil =>
    rw [List.nil_append, strrchr, strrchr_none c b hb]
    simp
  | cons x t ih =>
    rw [List.cons_append, strrchr, ih]
    simp

theorem strrchr_some (c : Char) : ∀ (s : List Char) (i : Nat), strrchr s c = some i →
    ∃ a b, s = a ++ c :: b ∧ a.length = i ∧ c ∉ b := by
  intro s
  induction s with
  | nil => intro i h; simp [strrchr] at h
  | cons x t ih =>
    intro i h
    rw [strrchr] at h
    cases ht : strrchr t c with
    | some j =>
      rw [ht] at h
      simp only [Option.some.injEq] at h
      obtain ⟨a, b, e, hl, hb⟩ := ih j ht
      exact ⟨x :: a, b, by rw [e]; rfl, by simp [hl, h], hb⟩
    | none =>
      rw [ht] at h
      by_cases hx : x = c
      · simp only [hx, if_true, Option.some.injEq] at h
        refine ⟨[], t, by rw [hx]; rfl, by simpa using h, ?_⟩
        intro hm
        have : ∀ (u : List Char), c ∈ u → strrchr u c ≠ none := by
          intro u
          induction u with
          | nil => intro h; simp at h
          | cons y v ihv =>
            intro h
            rw [strrchr]
            cases hv : strrchr v c with
            | some k => simp
            | none =>
              simp only [List.mem_cons] at h
              rcases h with h | h
              · simp [h]
              · exact absurd hv (ihv h)
        exact this t hm ht
      · simp [hx] at h

theorem isdigit_not_space (c : Char) (h : isdigit c = true) : isspace c = false := by
  unfold isdigit at h
  unfold isspace
  simp only [decide_eq_true_eq] at h
  simp only [decide_eq_false_iff_not]
  omega

theorem isdigit_ne (c d : Char) (h : isdigit c = true) (hd : isdigit d = false) : c ≠ d := by
  intro e
  rw [e, hd] at h
  exact absurd h (by decide)

/-- On a non-empty string of decimal digits `strtoul` returns their value and stops at the
end. -/
theorem strtoul_digits (U : Nat) (pd : List Char) (hne : pd ≠ [])
    (hdig : ∀ c ∈ pd, isdigit c = true) (hv : decValue pd ≤ U) :
    strtoul U pd = (decValue pd, pd.length) := by
  obtain ⟨c, t, rfl⟩ := List.exists_cons_of_ne_nil hne
  have hc : isdigit c = true := hdig c (List.mem_cons_self c t)
  have hs : isspace c = false := isdigit_not_space c hc
  have hm : c ≠ '-' := isdigit_ne c '-' hc (by decide)
  have hp : c ≠ '+' := isdigit_ne c '+' hc (by decide)
  have htw : List.takeWhile isdigit (c :: t) = c :: t := by
    rw [List.takeWhile_eq_self_iff]
    exact hdig
  have hnv : ¬ decValue (c :: t) > U := by omega
  unfold strtoul
  simp [List.takeWhile_cons, hs, hm, hp, htw, hnv]


theorem takeWhile_length_lt_of_mem (p : Char → Bool) (c : Char) (hc : p c = false) :
    ∀ s : List Char, c ∈ s → (s.takeWhile p).length < s.length := by
  intro s
  induction s with
  | nil => intro h; simp at h
  | cons x t ih =>
    intro h
    rw [List.takeWhile_cons]
    cases hx : p x with
    | false => simp
    | true =>
      simp only [List.mem_cons] at h
      rcases h with h | h
      · rw [← h, hc] at hx; exact absurd hx (by decide)
      · simp only [if_true, List.length_cons]
        have := ih h
        omega

theorem mem_drop_takeWhile (p : Char → Bool) (c : Char) (hc : p c = false) :
    ∀ s : List Char, c ∈ s → c ∈ s.drop (s.takeWhile p).length := by
  intro s
  induction s with
  | nil => intro h; simp at h
  | cons x t ih =>
    intro h
    rw [List.takeWhile_cons]
    cases hx : p x with
    | false => simpa using h
    | true =>
      simp only [List.mem_cons] at h
      rcases h with h | h
      · rw [← h, hc] at hx; exact absurd hx (by decide)
      · simpa using ih h

/-- A character that is neither white space, a sign nor a digit stops `strtoul` before the
end of the string. -/
theorem strtoul_end_lt (U : Nat) (seg : List Char) (c : Char) (hc : c ∈ seg)
    (hs : isspace c = false) (hd : isdigit c = false) (hp : c ≠ '+') (hm : c ≠ '-') :
    (strtoul U seg).2 < seg.length := by
  have hpos : 0 < seg.length := List.length_pos_of_mem hc
  have h1 : c ∈ seg.drop (seg.takeWhile isspace).length := mem_drop_takeWhile isspace c hs seg hc
  have hl1 : (seg.takeWhile isspace).length + (seg.drop (seg.takeWhile isspace).length).length
      = seg.length := by
    rw [List.length_drop]
    have := (List.takeWhile_sublist (l := seg) isspace).length_le
    omega
  generalize hS : seg.drop (seg.takeWhile isspace).length = s1 at h1 hl1
  generalize hN : (seg.takeWhile isspace).length = nSpace at hl1 hS
  have key : ∀ nSign : Nat, c ∈ s1.drop nSign → nSign ≤ s1.length →
      nSpace + nSign + ((s1.drop nSign).takeWhile isdigit).length < seg.length := by
    intro nSign hmem hle
    have := takeWhile_length_lt_of_mem isdigit c hd _ hmem
    rw [List.length_drop] at this
    omega
  have hsign : c ∈ s1.drop (if s1.head? = some '-' ∨ s1.head? = some '+' then 1 else 0) ∧
      (if s1.head? = some '-' ∨ s1.head? = some '+' then 1 else 0) ≤ s1.length := by
    cases s1 with
    | nil => simp at h1
    | cons y t =>
      by_cases hy : y = '-' ∨ y = '+'
      · have hcy : c ≠ y := by
          rcases hy with e | e <;> rw [e] <;> assumption
        simp only [List.mem_cons] at h1
        rcases h1 with h | h
        · exact absurd h hcy
        · simp [hy, h]
      · simp only [List.head?_cons, Option.some.injEq, hy, if_false, List.drop_zero]
        exact ⟨h1, by simp⟩
  have hk := key _ hsign.1 hsign.2
  unfold strtoul
  simp only [hN, hS]
  generalize (if s1.head? = some '-' ∨ s1.head? = some '+' then 1 else 0) = nSign at hk ⊢
  split_ifs <;> first | exact hpos | exact hk


theorem parse_noColon (U : Nat) (psz : List Char) (d : Int) (h : ':' ∉ psz.drop 1) :
    Lookup.parse U psz d = (Lookup.stripBrackets psz, d) := by
  unfold Lookup.parse
  rw [strrchr_none ':' _ h]

/-- The parse of a string whose last `:` after position 0 is followed by `seg`. -/
theorem parse_colon (U : Nat) (x : Char) (a seg : List Char) (d : Int) (hseg : ':' ∉ seg) :
    Lookup.parse U (x :: (a ++ ':' :: seg)) d =
      if seg.drop (strtoul U seg).2 = [] then
        (if x = '[' ∧ (x :: a).getLast? = some ']' then a.dropLast else x :: a,
         if 0 ≤ d ∧ d ≤ 65535 then ulongToInt (strtoul U seg).1 else d)
      else (Lookup.stripBrackets (x :: (a ++ ':' :: seg)), d) := by
  unfold Lookup.parse
  have e1 : (x :: (a ++ ':' :: seg)).drop 1 = a ++ ':' :: seg := rfl
  have e2 : (x :: (a ++ ':' :: seg)).drop (a.length + 1 + 1) = seg := by
    simp
  have e3 : (x :: (a ++ ':' :: seg)).take (a.length + 1) = x :: a := by
    simp
  have e4 : (x :: (a ++ ':' :: seg)).take (a.length + 1 - 1) = (x :: a).dropLast := by
    rw [List.dropLast_eq_take]
    simp only [Nat.add_sub_cancel, List.length_cons]
    rw [← e3, List.take_take]
    simp
  have e5 : (x :: (a ++ ':' :: seg))[a.length + 1 - 1]? = (x :: a).getLast? := by
    simp only [Nat.add_sub_cancel]
    rw [List.getLast?_eq_getElem?]
    simp only [List.length_cons, Nat.add_sub_cancel]
    rw [← List.cons_append, List.getElem?_append_left (by simp)]
  rw [e1, strrchr_append ':' seg hseg a]
  simp only [e2, e3, e4, e5, List.head?_cons, Option.some.injEq]
  by_cases hx : x = '[' ∧ (x :: a).getLast? = some ']'
  · obtain ⟨hx1, hx2⟩ := hx
    subst hx1
    have hd : (('[' :: a).dropLast).drop 1 = a.dropLast := by
      cases a with
      | nil => simp at hx2
      | cons y t => simp [List.dropLast]
    simp only [hx2, and_self, if_true, hd]
  · simp only [hx, if_false]


theorem strrchr_of_mem (c : Char) : ∀ s : List Char, c ∈ s → ∃ i, strrchr s c = some i := by
  intro s
  induction s with
  | nil => intro h; simp at h
  | cons y v ih =>
    intro h
    rw [strrchr]
    cases hv : strrchr v c with
    | some k => exact ⟨k + 1, rfl⟩
    | none =>
      simp only [List.mem_cons] at h
      rcases h with h | h
      · exact ⟨0, by simp [h]⟩
      · obtain ⟨i, hi⟩ := ih h
        rw [hi] at hv
        exact absurd hv (by simp)

theorem Lookup_eq_finish (sys : Resolver) (s : List Char) (d : Int) (f : Bool) (hne : s ≠ [])
    (hlen : s.length ≤ 255) :
    Lookup sys s d f = Lookup.finish sys (Lookup.parse sys.ULONG_MAX s d).1
      (Lookup.parse sys.ULONG_MAX s d).2 f := by
  unfold Lookup
  rw [if_neg hne, List.take_of_length_le hlen]

theorem finish_some (sys : Resolver) (host : List Char) (p : Int) (f : Bool) (ip : CIP)
    (rest : List CIP) (h : LookupIntern sys host 1 f = (true, ip :: rest)) :
    Lookup.finish sys host p f = some ⟨ip, (p % 65536).toNat⟩ := by
  unfold Lookup.finish
  rw [h]

theorem finish_port (sys : Resolver) (host : List Char) (p : Int) (f : Bool) (r : CIPPort)
    (h : Lookup.finish sys host p f = some r) (hp : 0 ≤ p ∧ p ≤ 65535) :
    (r.port : Int) = p := by
  unfold Lookup.finish at h
  split at h
  · simp only [Option.some.injEq] at h
    rw [← h]
    simp only
    omega
  · exact absurd h (by simp)

theorem ulongToInt_small (v : Nat) (h : v ≤ 65535) : ulongToInt v = (v : Int) := by
  unfold ulongToInt
  omega

theorem stripBrackets_bracketed (h : List Char) :
    Lookup.stripBrackets ('[' :: (h ++ [']'])) = h := by
  unfold Lookup.stripBrackets
  have e1 : ('[' :: (h ++ [']'])).getLast? = some ']' := by
    rw [← List.cons_append, List.getLast?_append]
    rfl
  have e2 : ('[' :: (h ++ [']'])).dropLast = '[' :: h := by
    rw [← List.cons_append, List.dropLast_concat]
  rw [e1, e2]
  simp

theorem stripBrackets_plain (s : List Char) (hs : ¬ ∃ h, s = '[' :: (h ++ [']'])) :
    Lookup.stripBrackets s = s := by
  unfold Lookup.stripBrackets
  rw [if_neg]
  rintro ⟨h1, h2⟩
  apply hs
  cases s with
  | nil => simp at h1
  | cons x t =>
    simp only [List.head?_cons, Option.some.injEq] at h1
    subst h1
    cases ht : t.getLast? with
    | none =>
      rw [List.getLast?_eq_none_iff] at ht
      subst ht
      simp at h2
    | some y =>
      have e := List.dropLast_append_getLast? y ht
      have hy : y = ']' := by
        rw [← e, ← List.cons_append, List.getLast?_append] at h2
        simpa using h2
      exact ⟨t.dropLast, by rw [← hy, e]⟩

theorem collect_full (useIPv6 : Bool) (ip : CIP) :
    ∀ l : List AddrInfo, LookupIntern.collect useIPv6 1 l [ip] = [ip] := by
  intro l
  cases l with
  | nil => rfl
  | cons ai rest => simp [LookupIntern.collect]

/-- With `nMaxSolutions = 1` and an `AF_INET` entry at the head of the resolver's list,
`LookupIntern` succeeds with that entry alone. -/
theorem LookupIntern_inet_first (sys : Resolver) (host : List Char) (f : Bool)
    (a b c d : Nat) (rest : List AddrInfo)
    (h : sys.getaddrinfo host (!f) = some (AddrInfo.inet a b c d :: rest)) :
    LookupIntern sys host 1 f = (true, [CIP.ofIPv4 a b c d]) := by
  unfold LookupIntern
  rw [h]
  simp [LookupIntern.collect, collect_full]

/-- C12: for a host text `h`, a port written as a non-empty string `pd` of decimal digits of
value at most 65535, a default port in 0..65535 and at most 255 bytes in all, `Lookup` on
`[h]:pd` hands exactly `h` to `LookupIntern` (and so to the system resolver) and, when that
succeeds, returns the first resolved address with the port `pd` denotes. -/
theorem Lookup_bracketed_port (sys : Resolver) (h pd : List Char) (d : Int) (f : Bool)
    (hU : 65535 ≤ sys.ULONG_MAX) (hne : pd ≠ []) (hdig : ∀ c ∈ pd, isdigit c = true)
    (hval : decValue pd ≤ 65535) (hd : 0 ≤ d ∧ d ≤ 65535)
    (hlen : ('[' :: (h ++ ']' :: ':' :: pd)).length ≤ 255) :
    Lookup.parse sys.ULONG_MAX ('[' :: (h ++ ']' :: ':' :: pd)) d = (h, (decValue pd : Int)) ∧
    Lookup sys ('[' :: (h ++ ']' :: ':' :: pd)) d f
      = Lookup.finish sys h (decValue pd : Int) f ∧
    (∀ ip rest, LookupIntern sys h 1 f = (true, ip :: rest) →
      Lookup sys ('[' :: (h ++ ']' :: ':' :: pd)) d f = some ⟨ip, decValue pd⟩) ∧
    (∀ a b c e rest, sys.getaddrinfo h (!f) = some (AddrInfo.inet a b c e :: rest) →
      Lookup sys ('[' :: (h ++ ']' :: ':' :: pd)) d f
        = some ⟨CIP.ofIPv4 a b c e, decValue pd⟩) := by
  have hcolon : ':' ∉ pd := fun hm => absurd (hdig ':' hm) (by decide)
  have hst := strtoul_digits sys.ULONG_MAX pd hne hdig (by omega)
  have hp : Lookup.parse sys.ULONG_MAX ('[' :: (h ++ ']' :: ':' :: pd)) d
      = (h, (decValue pd : Int)) := by
    have e : h ++ ']' :: ':' :: pd = (h ++ [']']) ++ ':' :: pd := by simp
    rw [e, parse_colon sys.ULONG_MAX '[' (h ++ [']']) pd d hcolon, hst]
    have e1 : ('[' :: (h ++ [']'])).getLast? = some ']' := by
      rw [← List.cons_append, List.getLast?_append]
      rfl
    simp only [List.drop_length, if_true, e1, and_self, List.dropLast_concat, hd,
      ulongToInt_small _ hval]
  have hl := Lookup_eq_finish sys _ d f (by simp) hlen
  rw [hp] at hl
  have hres : ∀ ip rest, LookupIntern sys h 1 f = (true, ip :: rest) →
      Lookup sys ('[' :: (h ++ ']' :: ':' :: pd)) d f = some ⟨ip, decValue pd⟩ := by
    intro ip rest hi
    rw [hl, finish_some sys h _ f ip rest hi]
    congr 2
    omega
  refine ⟨hp, hl, hres, ?_⟩
  intro a b c e rest hg
  exact hres _ [] (LookupIntern_inet_first sys h f a b c e rest hg)

/-- C12 witness: with a resolver that knows `::1`, `Lookup("[::1]:8333", 0)` gives the address
`::1` with port 8333. -/
theorem Lookup_bracketed_port_witness :
    Lookup ⟨fun name _ => if name = "::1".toList then some [AddrInfo.inet6 pchLocal] else none,
      true, 2 ^ 64 - 1⟩ "[::1]:8333".toList 0 false = some ⟨CIP.ofIPv6 pchLocal, 8333⟩ :=
  (Lookup_bracketed_port
    ⟨fun name _ => if name = "::1".toList then some [AddrInfo.inet6 pchLocal] else none,
      true, 2 ^ 64 - 1⟩ "::1".toList "8333".toList 0 false (by decide) (by decide) (by decide)
    (by decide) (by decide) (by decide)).2.2.1 (CIP.ofIPv6 pchLocal) [] (by decide)


theorem parse_bracketed (U : Nat) (h : List Char) (d : Int) :
    Lookup.parse U ('[' :: (h ++ [']'])) d = (h, d) := by
  by_cases hc : ':' ∈ h ++ [']']
  · obtain ⟨i, hi⟩ := strrchr_of_mem ':' _ hc
    obtain ⟨a, b, e, -, hb⟩ := strrchr_some ':' _ i hi
    have hmem : ']' ∈ b := by
      have hl : (h ++ [']']).getLast? = some ']' := by
        rw [List.getLast?_append]; rfl
      rw [e, List.getLast?_append] at hl
      cases b with
      | nil => simp at hl
      | cons y t =>
        have : (y :: t).getLast? = some ']' := by
          simpa [List.getLast?_cons_cons] using hl
        exact List.mem_of_getLast?_eq_some this
    have hlt := strtoul_end_lt U b ']' hmem (by decide) (by decide) (by decide) (by decide)
    have hnd : ¬ b.drop (strtoul U b).2 = [] := by
      rw [List.drop_eq_nil_iff]
      omega
    rw [e, parse_colon U '[' a b d hb, if_neg hnd, ← e, stripBrackets_bracketed]
  · rw [parse_noColon U _ d (by simpa using hc), stripBrackets_bracketed]

/-- What `Lookup.finish` does with the resolver: `getaddrinfo` is asked for `host`; an error
gives failure, otherwise the first address collected from its list is returned with the
port. -/
theorem finish_eq (sys : Resolver) (host : List Char) (p : Int) (f : Bool) :
    Lookup.finish sys host p f =
      (sys.getaddrinfo host (!f)).bind (fun aiRes =>
        (LookupIntern.collect sys.USE_IPV6 1 aiRes []).head?.map
          (fun ip => (⟨ip, (p % 65536).toNat⟩ : CIPPort))) := by
  unfold Lookup.finish LookupIntern
  cases hg : sys.getaddrinfo host (!f) with
  | none => rfl
  | some aiRes =>
    simp only [Option.some_bind]
    cases hc : LookupIntern.collect sys.USE_IPV6 1 aiRes [] with
    | nil => simp
    | cons ip rest => simp

/-- A string that parses as host `host` and a port `p` in 0..65535: `Lookup` asks the
resolver for `host` only, fails when it fails, and returns the first collected address with
port `p`; an `AF_INET` entry at the head of the resolver's list is that address. -/
theorem Lookup_of_parse (sys : Resolver) (s host : List Char) (d p : Int) (f : Bool)
    (hne : s ≠ []) (hlen : s.length ≤ 255)
    (hparse : Lookup.parse sys.ULONG_MAX s d = (host, p)) (hp : 0 ≤ p ∧ p ≤ 65535) :
    Lookup sys s d f =
      (sys.getaddrinfo host (!f)).bind (fun aiRes =>
        (LookupIntern.collect sys.USE_IPV6 1 aiRes []).head?.map
          (fun ip => (⟨ip, p.toNat⟩ : CIPPort))) ∧
    (∀ a b c e rest, sys.getaddrinfo host (!f) = some (AddrInfo.inet a b c e :: rest) →
      Lookup sys s d f = some ⟨CIP.ofIPv4 a b c e, p.toNat⟩) ∧
    (∀ ip rest, LookupIntern sys host 1 f = (true, ip :: rest) →
      Lookup sys s d f = some ⟨ip, p.toNat⟩) := by
  have hl := Lookup_eq_finish sys s d f hne hlen
  rw [hparse] at hl
  have hpn : (p % 65536).toNat = p.toNat := by omega
  have heq : Lookup sys s d f =
      (sys.getaddrinfo host (!f)).bind (fun aiRes =>
        (LookupIntern.collect sys.USE_IPV6 1 aiRes []).head?.map
          (fun ip => (⟨ip, p.toNat⟩ : CIPPort))) := by
    rw [hl, finish_eq, hpn]
  refine ⟨heq, ?_, ?_⟩
  · intro a b c e rest hg
    rw [heq, hg]
    simp [LookupIntern.collect, collect_full]
  · intro ip rest hi
    rw [hl, finish_some sys host p f ip rest hi, hpn]

/-- C13: for a non-empty string `s` of at most 255 bytes and a default port `d` in 0..65535:
when `s` is `[h]`, `Lookup` hands the bracket content `h` to the system resolver; when `s` is
not of that form and has no `:` after position 0, it hands `s` itself. In both cases the
resolver is asked for that host only, `Lookup` fails when the resolver fails, and when
resolution succeeds `Lookup` returns the first resolved address with the port `d`. -/
theorem Lookup_default_port (sys : Resolver) (s : List Char) (d : Int) (f : Bool)
    (hne : s ≠ []) (hlen : s.length ≤ 255) (hd : 0 ≤ d ∧ d ≤ 65535) :
    (∀ h, s = '[' :: (h ++ [']']) →
      Lookup.parse sys.ULONG_MAX s d = (h, d) ∧ Lookup sys s d f = Lookup.finish sys h d f ∧
      (∀ r, Lookup sys s d f = some r → (r.port : Int) = d) ∧
      Lookup sys s d f =
        (sys.getaddrinfo h (!f)).bind (fun aiRes =>
          (LookupIntern.collect sys.USE_IPV6 1 aiRes []).head?.map
            (fun ip => (⟨ip, d.toNat⟩ : CIPPort))) ∧
      (∀ a b c e rest, sys.getaddrinfo h (!f) = some (AddrInfo.inet a b c e :: rest) →
        Lookup sys s d f = some ⟨CIP.ofIPv4 a b c e, d.toNat⟩) ∧
      (∀ ip rest, LookupIntern sys h 1 f = (true, ip :: rest) →
        Lookup sys s d f = some ⟨ip, d.toNat⟩)) ∧
    ((¬ ∃ h, s = '[' :: (h ++ [']'])) → ':' ∉ s.drop 1 →
      Lookup.parse sys.ULONG_MAX s d = (s, d) ∧ Lookup sys s d f = Lookup.finish sys s d f ∧
      (∀ r, Lookup sys s d f = some r → (r.port : Int) = d) ∧
      Lookup sys s d f =
        (sys.getaddrinfo s (!f)).bind (fun aiRes =>
          (LookupIntern.collect sys.USE_IPV6 1 aiRes []).head?.map
            (fun ip => (⟨ip, d.toNat⟩ : CIPPort))) ∧
      (∀ a b c e rest, sys.getaddrinfo s (!f) = some (AddrInfo.inet a b c e :: rest) →
        Lookup sys s d f = some ⟨CIP.ofIPv4 a b c e, d.toNat⟩) ∧
      (∀ ip rest, LookupIntern sys s 1 f = (true, ip :: rest) →
        Lookup sys s d f = some ⟨ip, d.toNat⟩)) := by
  have hl := Lookup_eq_finish sys s d f hne hlen
  constructor
  · intro h e
    have hp : Lookup.parse sys.ULONG_MAX s d = (h, d) := by
      rw [e]; exact parse_bracketed _ h d
    obtain ⟨q1, q2, q3⟩ := Lookup_of_parse sys s h d d f hne hlen hp hd
    rw [hp] at hl
    refine ⟨hp, hl, ?_, q1, q2, q3⟩
    intro r hr
    rw [hl] at hr
    exact finish_port sys h d f r hr hd
  · intro hnb hc
    have hp : Lookup.parse sys.ULONG_MAX s d = (s, d) := by
      rw [parse_noColon _ s d hc, stripBrackets_plain s hnb]
    obtain ⟨q1, q2, q3⟩ := Lookup_of_parse sys s s d d f hne hlen hp hd
    rw [hp] at hl
    refine ⟨hp, hl, ?_, q1, q2, q3⟩
    intro r hr
    rw [hl] at hr
    exact finish_port sys s d f r hr hd

/-- C13 witness: with a resolver that knows `10.0.0.1` and `::1` and nothing else,
`Lookup("10.0.0.1", 8333)` returns 10.0.0.1 with port 8333 and `Lookup("[::1]", 8333)` returns
`::1` with port 8333. -/
theorem Lookup_default_port_witness :
    Lookup ⟨fun name _ => if name = "10.0.0.1".toList then some [AddrInfo.inet 10 0 0 1]
        else if name = "::1".toList then some [AddrInfo.inet6 pchLocal] else none,
      true, 2 ^ 64 - 1⟩ "10.0.0.1".toList 8333 false = some ⟨CIP.ofIPv4 10 0 0 1, 8333⟩ ∧
    Lookup ⟨fun name _ => if name = "10.0.0.1".toList then some [AddrInfo.inet 10 0 0 1]
        else if name = "::1".toList then some [AddrInfo.inet6 pchLocal] else none,
      true, 2 ^ 64 - 1⟩ "[::1]".toList 8333 false = some ⟨CIP.ofIPv6 pchLocal, 8333⟩ :=
  ⟨((Lookup_default_port
      ⟨fun name _ => if name = "10.0.0.1".toList then some [AddrInfo.inet 10 0 0 1]
        else if name = "::1".toList then some [AddrInfo.inet6 pchLocal] else none,
      true, 2 ^ 64 - 1⟩ "10.0.0.1".toList 8333 false (by decide) (by decide) (by decide)).2
      (by
        rintro ⟨h, e⟩
        have h1 : "10.0.0.1".toList.head? = some '[' := congrArg List.head? e
        exact absurd h1 (by decide))
      (by decide)).2.2.2.2.1 10 0 0 1 [] (by decide),
   (((Lookup_default_port
      ⟨fun name _ => if name = "10.0.0.1".toList then some [AddrInfo.inet 10 0 0 1]
        else if name = "::1".toList then some [AddrInfo.inet6 pchLocal] else none,
      true, 2 ^ 64 - 1⟩ "[::1]".toList 8333 false (by decide) (by decide) (by decide)).1
      "::1".toList (by decide)).2.2.2.2.2 (CIP.ofIPv6 pchLocal) [] (by decide))⟩

/-- C14 (as stated, refuted): with default port 8333 and a resolver that answers every name
with 1.2.3.4, `Lookup` succeeds with port 80 on `host:+80` and on `host: 80` (sign, leading
white space), with port 0 on `host:` (empty segment) and with port 4464 on `host:70000`
(value above 65535); none of these is 8333. -/
theorem Lookup_port_counterexample :
    Lookup ⟨fun _ _ => some [AddrInfo.inet 1 2 3 4], true, 2 ^ 64 - 1⟩ "host:+80".toList 8333
      false = some ⟨CIP.ofIPv4 1 2 3 4, 80⟩ ∧
    Lookup ⟨fun _ _ => some [AddrInfo.inet 1 2 3 4], true, 2 ^ 64 - 1⟩ "host: 80".toList 8333
      false = some ⟨CIP.ofIPv4 1 2 3 4, 80⟩ ∧
    Lookup ⟨fun _ _ => some [AddrInfo.inet 1 2 3 4], true, 2 ^ 64 - 1⟩ "host:".toList 8333
      false = some ⟨CIP.ofIPv4 1 2 3 4, 0⟩ ∧
    Lookup ⟨fun _ _ => some [AddrInfo.inet 1 2 3 4], true, 2 ^ 64 - 1⟩ "host:70000".toList 8333
      false = some ⟨CIP.ofIPv4 1 2 3 4, 4464⟩ := by
  decide


/-- C14 (amended): for a string of at most 255 bytes and a default port `d` in 0..65535, a
successful `Lookup` returns `d` when there is no `:` after position 0 or `strtoul` stops
before the end of the text after the last `:`; when that text is not empty and `strtoul`
takes all of it (white space, a sign, decimal digits) with a value `v` of at most 65535, the
port is `v`; in particular a non-empty string of digits of value at most 65535 gives that
value. -/
theorem Lookup_port_rule (sys : Resolver) (s : List Char) (d : Int) (f : Bool) (r : CIPPort)
    (hlen : s.length ≤ 255) (hd : 0 ≤ d ∧ d ≤ 65535) (hr : Lookup sys s d f = some r) :
    (':' ∉ s.drop 1 → (r.port : Int) = d) ∧
    (∀ x a seg, s = x :: (a ++ ':' :: seg) → ':' ∉ seg →
      ((strtoul sys.ULONG_MAX seg).2 < seg.length → (r.port : Int) = d) ∧
      (seg ≠ [] → (strtoul sys.ULONG_MAX seg).2 = seg.length →
        (strtoul sys.ULONG_MAX seg).1 ≤ 65535 → r.port = (strtoul sys.ULONG_MAX seg).1) ∧
      (seg ≠ [] → (∀ c ∈ seg, isdigit c = true) → decValue seg ≤ 65535 →
        65535 ≤ sys.ULONG_MAX → r.port = decValue seg)) := by
  have hne : s ≠ [] := by
    intro e
    rw [e] at hr
    simp [Lookup] at hr
  have hl := Lookup_eq_finish sys s d f hne hlen
  rw [hl] at hr
  have hfull : ∀ x a seg, s = x :: (a ++ ':' :: seg) → ':' ∉ seg → seg ≠ [] →
      (strtoul sys.ULONG_MAX seg).2 = seg.length → (strtoul sys.ULONG_MAX seg).1 ≤ 65535 →
      r.port = (strtoul sys.ULONG_MAX seg).1 := by
    intro x a seg e hseg _ hend hv
    rw [e, parse_colon sys.ULONG_MAX x a seg d hseg, hend, List.drop_length] at hr
    simp only [if_true, hd, and_self, ulongToInt_small _ hv] at hr
    have := finish_port sys _ _ f r hr (by omega)
    omega
  constructor
  · intro hc
    rw [parse_noColon _ s d hc] at hr
    exact finish_port sys _ d f r hr hd
  · intro x a seg e hseg
    refine ⟨?_, hfull x a seg e hseg, ?_⟩
    · intro hlt
      have hnd : ¬ seg.drop (strtoul sys.ULONG_MAX seg).2 = [] := by
        rw [List.drop_eq_nil_iff]
        omega
      rw [e, parse_colon sys.ULONG_MAX x a seg d hseg, if_neg hnd] at hr
      exact finish_port sys _ d f r hr hd
    · intro hsne hdig hv hU
      have hst := strtoul_digits sys.ULONG_MAX seg hsne hdig (by omega)
      have := hfull x a seg e hseg hsne (by rw [hst]) (by rw [hst]; exact hv)
      rw [this, hst]

/-- C14 witness: with default port 8333 and a resolver that answers every name with
1.2.3.4, `Lookup("host:80")` returns port 80. -/
theorem Lookup_port_rule_witness :
    Lookup ⟨fun _ _ => some [AddrInfo.inet 1 2 3 4], true, 2 ^ 64 - 1⟩ "host:80".toList 8333
      false = some ⟨CIP.ofIPv4 1 2 3 4, 80⟩ ∧
    (80 : Nat) = decValue "80".toList :=
  ⟨by decide, ((Lookup_port_rule ⟨fun _ _ => some [AddrInfo.inet 1 2 3 4], true, 2 ^ 64 - 1⟩
    "host:80".toList 8333 false ⟨CIP.ofIPv4 1 2 3 4, 80⟩ (by decide) (by decide)
    (by decide)).2 'h' "ost".toList "80".toList (by decide) (by decide)).2.2 (by decide)
    (by decide) (by decide) (by decide)⟩

/-- C15 (as stated, refuted): on the unbracketed literal `::1` with default port 8333,
`Lookup` hands `:` to `LookupIntern` and takes 1 as the port; on `2001:4860:4860::8888` it
hands `2001:4860:4860:` and takes 8888; with a resolver that answers every name, the
returned port is 1, not 8333. -/
theorem Lookup_ipv6_split :
    Lookup.parse (2 ^ 64 - 1) "::1".toList 8333 = (":".toList, 1) ∧
    Lookup.parse (2 ^ 64 - 1) "2001:4860:4860::8888".toList 8333
      = ("2001:4860:4860:".toList, 8888) ∧
    Lookup ⟨fun _ _ => some [AddrInfo.inet6 pchLocal], true, 2 ^ 64 - 1⟩ "::1".toList 8333
      false = some ⟨CIP.ofIPv6 pchLocal, 1⟩ := by
  decide

/-- C15 (amended): for a string of hexadecimal digits, `:` and `.` of at most 255 bytes that
has a `:` after position 0 and whose text after the last `:` contains a character other than
a decimal digit, `Lookup` hands the whole string unchanged to the system resolver: the
resolver is asked for that string only, `Lookup` fails when the resolver fails, and with a
default port `d` in 0..65535, when resolution succeeds `Lookup` returns the first resolved
address with the port `d`. -/
theorem Lookup_ipv6_literal (sys : Resolver) (x : Char) (a seg : List Char) (d : Int)
    (f : Bool) (hchars : ∀ c ∈ x :: (a ++ ':' :: seg), isIPv6LiteralChar c = true)
    (hseg : ':' ∉ seg) (hnd : ∃ c ∈ seg, isdigit c = false)
    (hlen : (x :: (a ++ ':' :: seg)).length ≤ 255) (hd : 0 ≤ d ∧ d ≤ 65535) :
    Lookup.parse sys.ULONG_MAX (x :: (a ++ ':' :: seg)) d = (x :: (a ++ ':' :: seg), d) ∧
    Lookup sys (x :: (a ++ ':' :: seg)) d f
      = Lookup.finish sys (x :: (a ++ ':' :: seg)) d f ∧
    (∀ r, Lookup sys (x :: (a ++ ':' :: seg)) d f = some r → (r.port : Int) = d) ∧
    Lookup sys (x :: (a ++ ':' :: seg)) d f =
      (sys.getaddrinfo (x :: (a ++ ':' :: seg)) (!f)).bind (fun aiRes =>
        (LookupIntern.collect sys.USE_IPV6 1 aiRes []).head?.map
          (fun ip => (⟨ip, d.toNat⟩ : CIPPort))) ∧
    (∀ b0 b1 b2 b3 rest, sys.getaddrinfo (x :: (a ++ ':' :: seg)) (!f)
        = some (AddrInfo.inet b0 b1 b2 b3 :: rest) →
      Lookup sys (x :: (a ++ ':' :: seg)) d f = some ⟨CIP.ofIPv4 b0 b1 b2 b3, d.toNat⟩) ∧
    (∀ ip rest, LookupIntern sys (x :: (a ++ ':' :: seg)) 1 f = (true, ip :: rest) →
      Lookup sys (x :: (a ++ ':' :: seg)) d f = some ⟨ip, d.toNat⟩) := by
  obtain ⟨c, hc, hcd⟩ := hnd
  have hcl : isIPv6LiteralChar c = true :=
    hchars c (List.mem_cons_of_mem _ (List.mem_append_right _ (List.mem_cons_of_mem _ hc)))
  have hcc : c ≠ ':' := fun e => hseg (e ▸ hc)
  have hcp : c ≠ '+' := by
    intro e; rw [e] at hcl; exact absurd hcl (by decide)
  have hcm : c ≠ '-' := by
    intro e; rw [e] at hcl; exact absurd hcl (by decide)
  have hcs : isspace c = false := by
    unfold isIPv6LiteralChar at hcl
    rw [hcd] at hcl
    simp only [Bool.false_or, Bool.or_eq_true, decide_eq_true_eq, beq_iff_eq] at hcl
    rcases hcl with ((h | h) | h) | h
    · unfold isspace; simp only [decide_eq_false_iff_not]; omega
    · unfold isspace; simp only [decide_eq_false_iff_not]; omega
    · exact absurd h hcc
    · rw [h]; decide
  have hlt := strtoul_end_lt sys.ULONG_MAX seg c hc hcs hcd hcp hcm
  have hndrop : ¬ seg.drop (strtoul sys.ULONG_MAX seg).2 = [] := by
    rw [List.drop_eq_nil_iff]
    omega
  have hx : x ≠ '[' := by
    intro e
    have := hchars x (List.mem_cons_self _ _)
    rw [e] at this
    exact absurd this (by decide)
  have hsb : Lookup.stripBrackets (x :: (a ++ ':' :: seg)) = x :: (a ++ ':' :: seg) := by
    unfold Lookup.stripBrackets
    rw [if_neg]
    rintro ⟨h1, -⟩
    simp only [List.head?_cons, Option.some.injEq] at h1
    exact hx h1
  have hp : Lookup.parse sys.ULONG_MAX (x :: (a ++ ':' :: seg)) d
      = (x :: (a ++ ':' :: seg), d) := by
    rw [parse_colon sys.ULONG_MAX x a seg d hseg, if_neg hndrop, hsb]
  have hl := Lookup_eq_finish sys _ d f (by simp) hlen
  obtain ⟨q1, q2, q3⟩ := Lookup_of_parse sys _ _ d d f (by simp) hlen hp hd
  rw [hp] at hl
  refine ⟨hp, hl, ?_, q1, q2, q3⟩
  intro r hr
  rw [hl] at hr
  exact finish_port sys _ d f r hr hd

/-- C15 witness: with a resolver that knows `2001:db8::ff` and nothing else,
`Lookup("2001:db8::ff", 8333)` hands the literal over whole and returns its address with the
default port 8333. -/
theorem Lookup_ipv6_literal_witness :
    Lookup.parse (2 ^ 64 - 1) "2001:db8::ff".toList 8333 = ("2001:db8::ff".toList, 8333) ∧
    Lookup ⟨fun name _ => if name = "2001:db8::ff".toList then
        some [AddrInfo.inet6 [0x20, 0x01, 0x0d, 0xb8, 0, 0, 0, 0, 0, 0, 0, 0, 0, 0, 0, 0xff]]
        else none, true, 2 ^ 64 - 1⟩ "2001:db8::ff".toList 8333 false
      = some ⟨CIP.ofIPv6 [0x20, 0x01, 0x0d, 0xb8, 0, 0, 0, 0, 0, 0, 0, 0, 0, 0, 0, 0xff],
          8333⟩ :=
  have h := Lookup_ipv6_literal ⟨fun name _ => if name = "2001:db8::ff".toList then
      some [AddrInfo.inet6 [0x20, 0x01, 0x0d, 0xb8, 0, 0, 0, 0, 0, 0, 0, 0, 0, 0, 0, 0xff]]
      else none, true, 2 ^ 64 - 1⟩ '2' "001:db8:".toList "ff".toList
    8333 false (by decide) (by decide) ⟨'f', by decide, by decide⟩ (by decide) (by decide)
  ⟨h.1, h.2.2.2.2.2
    (CIP.ofIPv6 [0x20, 0x01, 0x0d, 0xb8, 0, 0, 0, 0, 0, 0, 0, 0, 0, 0, 0, 0xff]) []
    (by decide)⟩

theorem toDigits_one (b n : Nat) (h : n / b = 0) :
    Nat.toDigits b n = [Nat.digitChar (n % b)] := by
  unfold Nat.toDigits
  rw [Nat.toDigitsCore]
  simp [h]

theorem toDigitsCore_step (b fuel n : Nat) (ds : List Char) (h : n / b ≠ 0) :
    Nat.toDigitsCore b (fuel + 1) n ds
      = Nat.toDigitsCore b fuel (n / b) (Nat.digitChar (n % b) :: ds) := by
  rw [Nat.toDigitsCore]
  simp [h]

theorem toDigitsCore_last (b fuel n : Nat) (ds : List Char) (h : n / b = 0) :
    Nat.toDigitsCore b (fuel + 1) n ds = Nat.digitChar (n % b) :: ds := by
  rw [Nat.toDigitsCore]
  simp [h]

theorem fmtX_cases (n : Nat) (hn : n < 65536) :
    fmtX n =
      if n < 16 then [Nat.digitChar n]
      else if n < 256 then [Nat.digitChar (n / 16), Nat.digitChar (n % 16)]
      else if n < 4096 then
        [Nat.digitChar (n / 256), Nat.digitChar (n / 16 % 16), Nat.digitChar (n % 16)]
      else [Nat.digitChar (n / 4096), Nat.digitChar (n / 256 % 16),
        Nat.digitChar (n / 16 % 16), Nat.digitChar (n % 16)] := by
  unfold fmtX Nat.toDigits
  split_ifs with h1 h2 h3
  · rw [toDigitsCore_last 16 n n [] (by omega), Nat.mod_eq_of_lt h1]
  · obtain ⟨m, rfl⟩ : ∃ m, n = m + 1 := ⟨n - 1, by omega⟩
    rw [toDigitsCore_step 16 (m + 1) (m + 1) [] (by omega),
      toDigitsCore_last 16 m ((m + 1) / 16) _ (by omega)]
    have e : (m + 1) / 16 % 16 = (m + 1) / 16 := by omega
    rw [e]
  · obtain ⟨m, rfl⟩ : ∃ m, n = m + 2 := ⟨n - 2, by omega⟩
    rw [toDigitsCore_step 16 (m + 2) (m + 2) [] (by omega),
      toDigitsCore_step 16 (m + 1) ((m + 2) / 16) _ (by omega),
      toDigitsCore_last 16 m ((m + 2) / 16 / 16) _ (by omega)]
    have e1 : (m + 2) / 16 / 16 % 16 = (m + 2) / 256 := by omega
    rw [e1]
  · obtain ⟨m, rfl⟩ : ∃ m, n = m + 3 := ⟨n - 3, by omega⟩
    rw [toDigitsCore_step 16 (m + 3) (m + 3) [] (by omega),
      toDigitsCore_step 16 (m + 2) ((m + 3) / 16) _ (by omega),
      toDigitsCore_step 16 (m + 1) ((m + 3) / 16 / 16) _ (by omega),
      toDigitsCore_last 16 m ((m + 3) / 16 / 16 / 16) _ (by omega)]
    have e1 : (m + 3) / 16 / 16 / 16 % 16 = (m + 3) / 4096 := by omega
    have e2 : (m + 3) / 16 / 16 % 16 = (m + 3) / 256 % 16 := by omega
    rw [e1, e2]

theorem fmtU_cases (n : Nat) (hn : n < 256) :
    fmtU n =
      if n < 10 then [Nat.digitChar n]
      else if n < 100 then [Nat.digitChar (n / 10), Nat.digitChar (n % 10)]
      else [Nat.digitChar (n / 100), Nat.digitChar (n / 10 % 10), Nat.digitChar (n % 10)] := by
  unfold fmtU Nat.toDigits
  split_ifs with h1 h2
  · rw [toDigitsCore_last 10 n n [] (by omega), Nat.mod_eq_of_lt h1]
  · obtain ⟨m, rfl⟩ : ∃ m, n = m + 1 := ⟨n - 1, by omega⟩
    rw [toDigitsCore_step 10 (m + 1) (m + 1) [] (by omega),
      toDigitsCore_last 10 m ((m + 1) / 10) _ (by omega)]
    have e : (m + 1) / 10 % 10 = (m + 1) / 10 := by omega
    rw [e]
  · obtain ⟨m, rfl⟩ : ∃ m, n = m + 2 := ⟨n - 2, by omega⟩
    rw [toDigitsCore_step 10 (m + 2) (m + 2) [] (by omega),
      toDigitsCore_step 10 (m + 1) ((m + 2) / 10) _ (by omega),
      toDigitsCore_last 10 m ((m + 2) / 10 / 10) _ (by omega)]
    have e1 : (m + 2) / 10 / 10 % 10 = (m + 2) / 100 := by omega
    rw [e1]

theorem hexDigit_ok : ∀ d, d < 16 → hexDigitValue (Nat.digitChar d) = some d ∧
    Nat.digitChar d ≠ ':' ∧ Nat.digitChar d ≠ '.' := by
  decide

theorem decDigit_ok : ∀ d, d < 10 → isdigit (Nat.digitChar d) = true ∧
    (Nat.digitChar d).toNat - 48 = d ∧ Nat.digitChar d ≠ '.' := by
  decide

/-- The text `%x` produces for a 16-bit value reads back as that value and has no
separator in it. -/
theorem fmtX_ok (n : Nat) (hn : n < 65536) :
    parseHex (fmtX n) = some n ∧ ':' ∉ fmtX n ∧ '.' ∉ fmtX n := by
  rw [fmtX_cases n hn]
  split_ifs with h1 h2 h3
  · obtain ⟨a1, a2, a3⟩ := hexDigit_ok n h1
    refine ⟨?_, ?_, ?_⟩
    · simp [parseHex, a1]
    · simpa using a2.symm
    · simpa using a3.symm
  · obtain ⟨a1, a2, a3⟩ := hexDigit_ok (n / 16) (by omega)
    obtain ⟨b1, b2, b3⟩ := hexDigit_ok (n % 16) (by omega)
    refine ⟨?_, ?_, ?_⟩
    · simp only [parseHex, List.foldl, a1, b1]
      simp
      omega
    · simp [a2.symm, b2.symm]
    · simp [a3.symm, b3.symm]
  · obtain ⟨a1, a2, a3⟩ := hexDigit_ok (n / 256) (by omega)
    obtain ⟨b1, b2, b3⟩ := hexDigit_ok (n / 16 % 16) (by omega)
    obtain ⟨c1, c2, c3⟩ := hexDigit_ok (n % 16) (by omega)
    refine ⟨?_, ?_, ?_⟩
    · simp only [parseHex, List.foldl, a1, b1, c1]
      simp
      omega
    · simp [a2.symm, b2.symm, c2.symm]
    · simp [a3.symm, b3.symm, c3.symm]
  · obtain ⟨a1, a2, a3⟩ := hexDigit_ok (n / 4096) (by omega)
    obtain ⟨b1, b2, b3⟩ := hexDigit_ok (n / 256 % 16) (by omega)
    obtain ⟨c1, c2, c3⟩ := hexDigit_ok (n / 16 % 16) (by omega)
    obtain ⟨d1, d2, d3⟩ := hexDigit_ok (n % 16) (by omega)
    refine ⟨?_, ?_, ?_⟩
    · simp only [parseHex, List.foldl, a1, b1, c1, d1]
      simp
      omega
    · simp [a2.symm, b2.symm, c2.symm, d2.symm]
    · simp [a3.symm, b3.symm, c3.symm, d3.symm]

/-- The text `%u` produces for a byte reads back as that byte and has no `.` in it. -/
theorem fmtU_ok (n : Nat) (hn : n < 256) :
    parseDec (fmtU n) = some n ∧ '.' ∉ fmtU n := by
  rw [fmtU_cases n hn]
  split_ifs with h1 h2
  · obtain ⟨a1, a2, a3⟩ := decDigit_ok n (by omega)
    refine ⟨?_, ?_⟩
    · simp [parseDec, decValue, a1, a2]
    · simpa using a3.symm
  · obtain ⟨a1, a2, a3⟩ := decDigit_ok (n / 10) (by omega)
    obtain ⟨b1, b2, b3⟩ := decDigit_ok (n % 10) (by omega)
    refine ⟨?_, ?_⟩
    · simp only [parseDec, decValue, List.foldl, a2, b2]
      simp [a1, b1]
      omega
    · simp [a3.symm, b3.symm]
  · obtain ⟨a1, a2, a3⟩ := decDigit_ok (n / 100) (by omega)
    obtain ⟨b1, b2, b3⟩ := decDigit_ok (n / 10 % 10) (by omega)
    obtain ⟨c1, c2, c3⟩ := decDigit_ok (n % 10) (by omega)
    refine ⟨?_, ?_⟩
    · simp only [parseDec, decValue, List.foldl, a2, b2, c2]
      simp [a1, b1, c1]
      omega
    · simp [a3.symm, b3.symm, c3.symm]


theorem splitOn_nosep (sep : Char) : ∀ g : List Char, sep ∉ g → splitOn sep g = [g] := by
  intro g
  induction g with
  | nil => intro _; rfl
  | cons c t ih =>
    intro h
    simp only [List.mem_cons, not_or] at h
    have hc : ¬ c = sep := fun e => h.1 e.symm
    rw [splitOn, if_neg hc, ih h.2]

theorem splitOn_append (sep : Char) (rest : List Char) :
    ∀ g : List Char, sep ∉ g → splitOn sep (g ++ sep :: rest) = g :: splitOn sep rest := by
  intro g
  induction g with
  | nil => intro _; simp [splitOn]
  | cons c t ih =>
    intro h
    simp only [List.mem_cons, not_or] at h
    have hc : ¬ c = sep := fun e => h.1 e.symm
    rw [List.cons_append, splitOn, if_neg hc, ih h.2]

theorem shl8_or (hi lo : Nat) (hlo : lo < 256) : (hi <<< 8) ||| lo = hi * 256 + lo := by
  rw [Nat.shiftLeft_eq, Nat.mul_comm, ← Nat.mul_add_lt_is_or (i := 8) hlo hi]

/-- The literal of an IPv4-mapped address decodes to the address. -/
theorem decode_ToString_v4 (b12 b13 b14 b15 : Nat) (h12 : b12 < 256) (h13 : b13 < 256)
    (h14 : b14 < 256) (h15 : b15 < 256) :
    decodeLiteral (CIP.ToString ⟨[0, 0, 0, 0, 0, 0, 0, 0, 0, 0, 0xff, 0xff, b12, b13, b14,
      b15]⟩) = some ⟨[0, 0, 0, 0, 0, 0, 0, 0, 0, 0, 0xff, 0xff, b12, b13, b14, b15]⟩ := by
  obtain ⟨p12, d12⟩ := fmtU_ok b12 h12
  obtain ⟨p13, d13⟩ := fmtU_ok b13 h13
  obtain ⟨p14, d14⟩ := fmtU_ok b14 h14
  obtain ⟨p15, d15⟩ := fmtU_ok b15 h15
  have hs : CIP.ToString ⟨[0, 0, 0, 0, 0, 0, 0, 0, 0, 0, 0xff, 0xff, b12, b13, b14, b15]⟩
      = fmtU b12 ++ '.' :: (fmtU b13 ++ '.' :: (fmtU b14 ++ '.' :: fmtU b15)) := by
    simp [CIP.ToString, CIP.IsIPv4, memcmp, pchIPv4, CIP.GetByte]
  have hdot : '.' ∈ fmtU b12 ++ '.' :: (fmtU b13 ++ '.' :: (fmtU b14 ++ '.' :: fmtU b15)) :=
    List.mem_append_right _ (List.mem_cons_self _ _)
  rw [hs]
  unfold decodeLiteral
  rw [if_pos hdot, splitOn_append '.' _ _ d12, splitOn_append '.' _ _ d13,
    splitOn_append '.' _ _ d14, splitOn_nosep '.' _ d15]
  simp only [List.map_cons, List.map_nil, p12, p13, p14, p15]
  have hle : b12 ≤ 255 ∧ b13 ≤ 255 ∧ b14 ≤ 255 ∧ b15 ≤ 255 := by omega
  rw [if_pos hle]
  rfl


/-- The literal of an address that is not IPv4-mapped has no `.` and decodes to the
address. -/
theorem decode_ToString_v6 (x : CIP) (hx : x.WF) (h4 : x.IsIPv4 = false) :
    '.' ∉ x.ToString ∧ decodeLiteral x.ToString = some x := by
  obtain ⟨b0, b1, b2, b3, b4, b5, b6, b7, b8, b9, b10, b11, b12, b13, b14, b15, rfl,
    h0, h1, h2, h3, h4', h5, h6, h7, h8, h9, h10, h11, h12, h13, h14, h15⟩ := hx.bytes
  obtain ⟨p0, c0, d0⟩ := fmtX_ok (b0 * 256 + b1) (by omega)
  obtain ⟨p1, c1, d1⟩ := fmtX_ok (b2 * 256 + b3) (by omega)
  obtain ⟨p2, c2, d2⟩ := fmtX_ok (b4 * 256 + b5) (by omega)
  obtain ⟨p3, c3, d3⟩ := fmtX_ok (b6 * 256 + b7) (by omega)
  obtain ⟨p4, c4, d4⟩ := fmtX_ok (b8 * 256 + b9) (by omega)
  obtain ⟨p5, c5, d5⟩ := fmtX_ok (b10 * 256 + b11) (by omega)
  obtain ⟨p6, c6, d6⟩ := fmtX_ok (b12 * 256 + b13) (by omega)
  obtain ⟨p7, c7, d7⟩ := fmtX_ok (b14 * 256 + b15) (by omega)
  have hs : CIP.ToString ⟨[b0, b1, b2, b3, b4, b5, b6, b7, b8, b9, b10, b11, b12, b13, b14,
      b15]⟩
      = fmtX (b0 * 256 + b1) ++ ':' :: (fmtX (b2 * 256 + b3) ++ ':' ::
        (fmtX (b4 * 256 + b5) ++ ':' :: (fmtX (b6 * 256 + b7) ++ ':' ::
        (fmtX (b8 * 256 + b9) ++ ':' :: (fmtX (b10 * 256 + b11) ++ ':' ::
        (fmtX (b12 * 256 + b13) ++ ':' :: fmtX (b14 * 256 + b15))))))) := by
    unfold CIP.ToString
    rw [h4]
    simp only [Bool.false_eq_true, if_false, CIP.GetByte, List.getD_cons_succ,
      List.getD_cons_zero, Nat.reduceSub]
    rw [shl8_or b0 b1 h1, shl8_or b2 b3 h3, shl8_or b4 b5 h5, shl8_or b6 b7 h7,
      shl8_or b8 b9 h9, shl8_or b10 b11 h11, shl8_or b12 b13 h13, shl8_or b14 b15 h15]
  have hnd : '.' ∉ CIP.ToString ⟨[b0, b1, b2, b3, b4, b5, b6, b7, b8, b9, b10, b11, b12, b13,
      b14, b15]⟩ := by
    rw [hs]
    simp [d0, d1, d2, d3, d4, d5, d6, d7]
  refine ⟨hnd, ?_⟩
  unfold decodeLiteral
  rw [if_neg hnd, hs, splitOn_append ':' _ _ c0, splitOn_append ':' _ _ c1,
    splitOn_append ':' _ _ c2, splitOn_append ':' _ _ c3, splitOn_append ':' _ _ c4,
    splitOn_append ':' _ _ c5, splitOn_append ':' _ _ c6, splitOn_nosep ':' _ c7]
  simp only [List.map_cons, List.map_nil, p0, p1, p2, p3, p4, p5, p6, p7]
  have hle : b0 * 256 + b1 ≤ 0xffff ∧ b2 * 256 + b3 ≤ 0xffff ∧ b4 * 256 + b5 ≤ 0xffff ∧
      b6 * 256 + b7 ≤ 0xffff ∧ b8 * 256 + b9 ≤ 0xffff ∧ b10 * 256 + b11 ≤ 0xffff ∧
      b12 * 256 + b13 ≤ 0xffff ∧ b14 * 256 + b15 ≤ 0xffff := by
    omega
  rw [if_pos hle]
  have q0 : (b0 * 256 + b1) / 256 = b0 ∧ (b0 * 256 + b1) % 256 = b1 := by omega
  have q1 : (b2 * 256 + b3) / 256 = b2 ∧ (b2 * 256 + b3) % 256 = b3 := by omega
  have q2 : (b4 * 256 + b5) / 256 = b4 ∧ (b4 * 256 + b5) % 256 = b5 := by omega
  have q3 : (b6 * 256 + b7) / 256 = b6 ∧ (b6 * 256 + b7) % 256 = b7 := by omega
  have q4 : (b8 * 256 + b9) / 256 = b8 ∧ (b8 * 256 + b9) % 256 = b9 := by omega
  have q5 : (b10 * 256 + b11) / 256 = b10 ∧ (b10 * 256 + b11) % 256 = b11 := by omega
  have q6 : (b12 * 256 + b13) / 256 = b12 ∧ (b12 * 256 + b13) % 256 = b13 := by omega
  have q7 : (b14 * 256 + b15) / 256 = b14 ∧ (b14 * 256 + b15) % 256 = b15 := by omega
  rw [q0.1, q0.2, q1.1, q1.2, q2.1, q2.2, q3.1, q3.2, q4.1, q4.2, q5.1, q5.2, q6.1, q6.2,
    q7.1, q7.2]
  rfl

/-- The literal of a well-formed address: it has a `.` exactly for an IPv4-mapped address,
and it decodes to the address. -/
theorem decode_ToString (x : CIP) (hx : x.WF) :
    (x.IsIPv4 = true ↔ '.' ∈ x.ToString) ∧ decodeLiteral x.ToString = some x := by
  cases h4 : x.IsIPv4 with
  | false =>
    obtain ⟨hnd, hdec⟩ := decode_ToString_v6 x hx h4
    exact ⟨⟨fun h => absurd h (by decide), fun h => absurd h hnd⟩, hdec⟩
  | true =>
    obtain ⟨b0, b1, b2, b3, b4, b5, b6, b7, b8, b9, b10, b11, b12, b13, b14, b15, rfl,
      h0, h1, h2, h3, h4', h5, h6, h7, h8, h9, h10, h11, h12, h13, h14, h15⟩ := hx.bytes
    have e : [b0, b1, b2, b3, b4, b5, b6, b7, b8, b9, b10, b11] = pchIPv4 := by
      unfold CIP.IsIPv4 at h4
      rw [beq_iff_eq, memcmp_eq_zero_iff 12 _ _ (by simp) (by decide)] at h4
      simpa using h4
    simp only [pchIPv4, List.cons.injEq, and_true] at e
    obtain ⟨rfl, rfl, rfl, rfl, rfl, rfl, rfl, rfl, rfl, rfl, rfl, rfl⟩ := e
    have hdec := decode_ToString_v4 b12 b13 b14 b15 h12 h13 h14 h15
    refine ⟨⟨fun _ => ?_, fun _ => rfl⟩, hdec⟩
    have hs : CIP.ToString ⟨[0, 0, 0, 0, 0, 0, 0, 0, 0, 0, 0xff, 0xff, b12, b13, b14, b15]⟩
        = fmtU b12 ++ '.' :: (fmtU b13 ++ '.' :: (fmtU b14 ++ '.' :: fmtU b15)) := by
      simp [CIP.ToString, CIP.IsIPv4, memcmp, pchIPv4, CIP.GetByte]
    rw [hs]
    exact List.mem_append_right _ (List.mem_cons_self _ _)

/-- C18: for every sixteen-byte buffer the text `ToString` gives is a well-formed literal (a
dotted quad exactly for an IPv4-mapped buffer, otherwise eight hexadecimal groups), the
reference decoder reads it back as the same address, and so `ToString` is injective. -/
theorem ToString_roundtrip (x : CIP) (hx : x.WF) :
    decodeLiteral x.ToString = some x ∧
    (x.IsIPv4 = true ↔ '.' ∈ x.ToString) ∧
    (∀ y : CIP, y.WF → x.ToString = y.ToString → x = y) := by
  obtain ⟨h1, h2⟩ := decode_ToString x hx
  refine ⟨h2, h1, ?_⟩
  intro y hy e
  have h3 := (decode_ToString y hy).2
  rw [← e, h2] at h3
  exact Option.some.inj h3

/-- C18 witness: 8.8.4.4 prints as `8.8.4.4`, 2001:4860:4860::8888 prints as
`2001:4860:4860:0:0:0:0:8888`, and both read back. -/
theorem ToString_roundtrip_witness :
    (CIP.ofIPv4 8 8 4 4).ToString = "8.8.4.4".toList ∧
    decodeLiteral "8.8.4.4".toList = some (CIP.ofIPv4 8 8 4 4) ∧
    (CIP.ofIPv6 [0x20, 0x01, 0x48, 0x60, 0x48, 0x60, 0, 0, 0, 0, 0, 0, 0, 0, 0x88,
      0x88]).ToString = "2001:4860:4860:0:0:0:0:8888".toList ∧
    decodeLiteral "2001:4860:4860:0:0:0:0:8888".toList
      = some (CIP.ofIPv6 [0x20, 0x01, 0x48, 0x60, 0x48, 0x60, 0, 0, 0, 0, 0, 0, 0, 0, 0x88,
          0x88]) :=
  ⟨by decide, (ToString_roundtrip (CIP.ofIPv4 8 8 4 4) (by decide)).1, by decide,
   (ToString_roundtrip (CIP.ofIPv6 [0x20, 0x01, 0x48, 0x60, 0x48, 0x60, 0, 0, 0, 0, 0, 0, 0, 0,
     0x88, 0x88]) (by decide)).1⟩

end Netbase
